import Mathlib

/-!
Verification development for the member-profile-processor repository.

The development shallowly embeds the marathon-match rating pipeline:

* `runQubitsAlgorithm`, `processMarathonRatingsProvisional` — the Qubits
  rating engine (AlgorithmQubits, the `INITIAL_WEIGHT`/`FIRST_VOLATILITY`
  variant, part_004 lines 277-334);
* `loadCoderData`, `persistRatings`, `runRatingProcess`, `calculate` —
  the round-calculation service of part_004 (lines 370-604);
* `persistRatingsB` — the alternate Persistor of
  src/services/MarathonRatingsService.ts (lines 74-158);
* `handleMarathonRating` — the guard logic of
  src/services/KafkaHandlerService.ts (lines 72-92);
* `handleAutopilot` — the autopilot event router, modelled from the spec
  (the `handle` entry point called by app.ts is not present in the sources).

Numeric model.  JavaScript numbers are IEEE doubles.  They are modelled as
`Flt := Option ℚ`, where `none` plays the role of NaN and `some q` an exact
real value: every arithmetic operation propagates `none`, comparisons with
`none` are `false`, and division by zero yields `none` (on the one reachable
zero-denominator site, `rtemp / (n - 1)` with `n = 1`, IEEE also produces
NaN, since there the numerator is exactly 0).  IEEE infinities are collapsed
into the error value as well; with the genuine transcendental primitives
they arise only on inputs the pipeline cannot produce (probabilities outside
(0,1), zero volatilities).  Rounding error of double arithmetic is not
modelled: arithmetic on `some` values is exact.  The transcendental
primitives `sqrt`, `exp`, `log` and the constant `Math.PI` have no exact
rational counterpart; they are taken as parameters (`NumPrims`), and every
theorem about the engine is proved for all choices of these parameters.
-/

/-- IEEE double modelled as an exact rational or the error value NaN. -/
abbrev Flt := Option ℚ

/-- Addition; NaN absorbs. -/
def fadd : Flt → Flt → Flt
  | some a, some b => some (a + b)
  | _, _ => none

/-- Subtraction; NaN absorbs. -/
def fsub : Flt → Flt → Flt
  | some a, some b => some (a - b)
  | _, _ => none

/-- Multiplication; NaN absorbs (in IEEE, `0 * NaN = NaN` as well). -/
def fmul : Flt → Flt → Flt
  | some a, some b => some (a * b)
  | _, _ => none

/-- Division; NaN absorbs, and a zero denominator yields the error value. -/
def fdiv : Flt → Flt → Flt
  | some a, some b => if b = 0 then none else some (a / b)
  | _, _ => none

/-- Negation. -/
def fneg : Flt → Flt
  | some a => some (-a)
  | none => none

/-- `Math.abs`. -/
def fabs : Flt → Flt
  | some a => some |a|
  | none => none

/-- Squaring (the source's `sqr`). -/
def fsq (x : Flt) : Flt := fmul x x

/-- Strict `>`; any comparison against NaN is false. -/
def fgtB : Flt → Flt → Bool
  | some a, some b => decide (b < a)
  | _, _ => false

/-- Strict `<`; any comparison against NaN is false. -/
def fltB : Flt → Flt → Bool
  | some a, some b => decide (a < b)
  | _, _ => false

/-- `>=`; any comparison against NaN is false. -/
def fgeB : Flt → Flt → Bool
  | some a, some b => decide (b ≤ a)
  | _, _ => false

/-- `<=`; any comparison against NaN is false. -/
def fleB : Flt → Flt → Bool
  | some a, some b => decide (a ≤ b)
  | _, _ => false

/-- `Math.round`: round half towards positive infinity, as `Math.round`
does; Mathlib's `round` is `⌊x + 1/2⌋`, which agrees. -/
def fround : Flt → Flt
  | some a => some ((round a : ℤ) : ℚ)
  | none => none

/-- The transcendental primitives of the engine.  `Math.sqrt`, `Math.exp`,
`Math.log` and `Math.PI` have no exact rational values; the engine is
parameterised by an arbitrary rational stand-in for each, and the theorems
below hold for every choice.  NaN-propagation of the IEEE versions is
captured by the `Option.map` lifting. -/
structure NumPrims where
  sqrtQ : ℚ → ℚ
  expQ : ℚ → ℚ
  logQ : ℚ → ℚ
  piQ : ℚ

/-- Lifted `Math.sqrt` (NaN in, NaN out). -/
def NumPrims.fsqrt (P : NumPrims) : Flt → Flt := Option.map P.sqrtQ

/-- Lifted `Math.exp`. -/
def NumPrims.fexp (P : NumPrims) : Flt → Flt := Option.map P.expQ

/-- Lifted `Math.log`. -/
def NumPrims.flog (P : NumPrims) : Flt → Flt := Option.map P.logQ

/-- `INITIAL_WEIGHT` (part_004 line 226). -/
def INITIAL_WEIGHT : ℚ := 0.60

/-- `FINAL_WEIGHT` (part_004 line 227). -/
def FINAL_WEIGHT : ℚ := 0.18

/-- `FIRST_VOLATILITY` (part_004 line 228). -/
def FIRST_VOLATILITY : ℚ := 385

/-- `P_LOW` (part_004 line 229). -/
def P_LOW : ℚ := 0.02425

/-- `P_HIGH` (part_004 line 230). -/
def P_HIGH : ℚ := 1 - P_LOW

/-- `erf` of part_004 lines 238-242: the rational-exponential
approximation `1 - t * exp(-z*z - 1.26551223 + t*(...))`, reflected for
negative arguments. -/
def erfF (P : NumPrims) (z : Flt) : Flt :=
  let t := fdiv (some 1) (fadd (some 1) (fmul (some 0.5) (fabs z)))
  let ans := fsub (some 1) (fmul t (P.fexp (fadd
    (fsub (fneg (fmul z z)) (some 1.26551223))
    (fmul t (fadd (some 1.00002368)
      (fmul t (fadd (some 0.37409196)
        (fmul t (fadd (some 0.09678418)
          (fmul t (fadd (some (-0.18628806))
            (fmul t (fadd (some 0.27886807)
              (fmul t (fadd (some (-1.13520398))
                (fmul t (fadd (some 1.48851587)
                  (fmul t (fadd (some (-0.82215223))
                    (fmul t (some 0.17087277)))))))))))))))))))))
  if fgeB z (some 0) then ans else fneg ans

/-- `erfc` (part_004 line 244). -/
def erfcF (P : NumPrims) (z : Flt) : Flt := fsub (some 1) (erfF P z)

/-- The Halley refinement step `refine` (part_004 lines 246-253). -/
def refineF (P : NumPrims) (x d : Flt) : Flt :=
  if fgtB d (some 0) && fltB d (some 1) then
    let e := fsub (fmul (some 0.5) (erfcF P (fdiv (fneg x) (P.fsqrt (some 2))))) d
    let u := fmul (fmul e (P.fsqrt (some (2 * P.piQ)))) (P.fexp (fdiv (fmul x x) (some 2)))
    fsub x (fdiv u (fadd (some 1) (fdiv (fmul x u) (some 2))))
  else x

/-- Numerator Horner chain of the central `normsinv` branch
(`NORMINV_A`, part_004 line 231). -/
def norminvNumA (r : Flt) : Flt :=
  fadd (fmul (fadd (fmul (fadd (fmul (fadd (fmul (fadd (fmul
    (some (-39.69683028665376)) r) (some 220.9460984245205)) r)
    (some (-275.9285104469687))) r) (some 138.3577518672690)) r)
    (some (-30.66479806614716))) r) (some 2.506628277459239)

/-- Denominator Horner chain of the central `normsinv` branch
(`NORMINV_B`, part_004 line 232). -/
def norminvDenB (r : Flt) : Flt :=
  fadd (fmul (fadd (fmul (fadd (fmul (fadd (fmul (fadd (fmul
    (some (-54.47609879822406)) r) (some 161.5858368580409)) r)
    (some (-155.6989798598866))) r) (some 66.80131188771972)) r)
    (some (-13.28068155288572))) r) (some 1)

/-- Numerator Horner chain of the tail `normsinv` branches
(`NORMINV_C`, part_004 line 233). -/
def norminvNumC (q : Flt) : Flt :=
  fadd (fmul (fadd (fmul (fadd (fmul (fadd (fmul (fadd (fmul
    (some (-0.007784894002430293)) q) (some (-0.3223964580411365))) q)
    (some (-2.400758277161838))) q) (some (-2.549732539343734))) q)
    (some 4.374664141464968)) q) (some 2.938163982698783)

/-- Denominator Horner chain of the tail `normsinv` branches
(`NORMINV_D`, part_004 line 234). -/
def norminvDenD (q : Flt) : Flt :=
  fadd (fmul (fadd (fmul (fadd (fmul (fadd (fmul
    (some 0.007784695709041462) q) (some 0.3224671290700398)) q)
    (some 2.445134137142996)) q) (some 3.754408661907416)) q) (some 1)

/-- `normsinv` of part_004 lines 255-271.  The source returns `-Infinity`
at `p ≤ 0` and `+Infinity` at `p ≥ 1`; infinities are collapsed into the
error value here (the engine never reaches these branches on inputs the
pipeline produces, spec §4.1.1). -/
def normsinvF (P : NumPrims) (p : Flt) : Flt :=
  if fleB p (some 0) then none
  else if fgeB p (some 1) then none
  else
    let z :=
      if fltB p (some P_LOW) then
        let q := P.fsqrt (fmul (some (-2)) (P.flog p))
        fdiv (norminvNumC q) (norminvDenD q)
      else if fltB (some P_HIGH) p then
        let q := P.fsqrt (fmul (some (-2)) (P.flog (fsub (some 1) p)))
        fneg (fdiv (norminvNumC q) (norminvDenD q))
      else
        let q := fsub p (some 0.5)
        let r := fmul q q
        fdiv (fmul (norminvNumA r) q) (norminvDenB r)
    refineF P z p

/-- `winProbability` of part_004 lines 273-275:
`(erf((r1 - r2) / sqrt(2*(v1² + v2²))) + 1) * 0.5`. -/
def winProbability (P : NumPrims) (r1 r2 v1 v2 : Flt) : Flt :=
  fmul (fadd (erfF P (fdiv (fsub r1 r2)
    (P.fsqrt (fmul (some 2) (fadd (fmul v1 v1) (fmul v2 v2)))))) (some 1))
    (some 0.5)

/-- The `CoderRating` record of part_004 lines 212-224.  Input fields
`rating`/`volatility` are doubles (possibly NaN when re-loaded from a row a
previous NaN run wrote); `score` comes from `Number(system_point_total)||0`
and is always a real number; the computation fields are optional in the
source (`undefined` before assignment), hence `Option Flt` with `none` for
`undefined` — the distinction matters because `??` treats `undefined` but
not NaN as missing. -/
structure Coder where
  coderId : ℕ
  rating : Flt
  volatility : Flt
  numRatings : ℕ
  score : ℚ
  expectedRank : Option Flt := none
  expectedPerformance : Option Flt := none
  actualRank : ℚ := 0
  actualPerformance : Option Flt := none
  newRating : Option Flt := none
  newVolatility : Option Flt := none
  deriving DecidableEq, Repr

/-- First-timer normalisation (part_004 line 280): a coder with
`numRatings = 0` is reset to volatility 515 and rating 1200. -/
def normalizeFirstTimer (c : Coder) : Coder :=
  if c.numRatings = 0 then { c with volatility := some 515, rating := some 1200 } else c

/-- One step of the maximum-and-multiplicity scan of part_004 line 298:
`if (c.score >= max && c.actualRank === 0) { if (c.score === max) count++
else count = 1; max = c.score }`.  The accumulator is `(max, count)` with
`none` for the initial `-Infinity`. -/
def scanStep (acc : Option ℚ × ℕ) (c : Coder) : Option ℚ × ℕ :=
  let ge : Bool := match acc.1 with
    | none => true
    | some m => decide (m ≤ c.score)
  let eq : Bool := match acc.1 with
    | none => false
    | some m => decide (c.score = m)
  if ge && decide (c.actualRank = 0) then
    if eq then (acc.1, acc.2 + 1) else (some c.score, 1)
  else acc

/-- The inner scan of the actual-rank loop (part_004 line 298). -/
def scanMax (cs : List Coder) : Option ℚ × ℕ := cs.foldl scanStep (none, 0)

/-- The assignment of part_004 line 299: every coder whose score equals the
found maximum receives `actualRank = i + 0.5 + count/2` and
`actualPerformance = -normsinv((i + count/2) / n)`. -/
def assignRanks (P : NumPrims) (m : ℚ) (i k n : ℕ) (cs : List Coder) : List Coder :=
  cs.map (fun c =>
    if c.score = m then
      { c with actualRank := (i : ℚ) + 0.5 + (k : ℚ) / 2,
               actualPerformance := some (fneg (normsinvF P
                 (fdiv (some ((i : ℚ) + (k : ℚ) / 2)) (some (n : ℚ))))) }
    else c)

/-- The actual-rank while-loop of part_004 lines 294-301, with an explicit
fuel (the loop performs at most `n` iterations: each one ranks at least one
coder while `i < n`).  The `(none, _)` branch — no unranked coder although
`i < n` — cannot occur starting from an all-unranked slate. -/
def rankLoop (P : NumPrims) (n : ℕ) : ℕ → ℕ → List Coder → List Coder
  | 0, _, cs => cs
  | fuel + 1, i, cs =>
    if i < n then
      match scanMax cs with
      | (some m, k) => rankLoop P n fuel (i + k) (assignRanks P m i k n cs)
      | (none, _) => cs
    else cs

/-- The per-coder rating/volatility update of part_004 lines 302-321. -/
def updateCoder (P : NumPrims) (msd : Flt) (c : Coder) : Coder :=
  let diff := fsub (c.actualPerformance.getD (some 0)) (c.expectedPerformance.getD (some 0))
  let oldRating := c.rating
  let performedAs := fadd oldRating (fmul diff msd)
  let w0 : ℚ := (INITIAL_WEIGHT - FINAL_WEIGHT) / ((c.numRatings : ℚ) + 1) + FINAL_WEIGHT
  let w1 : ℚ := 1 / (1 - w0) - 1
  let w2 : ℚ := if fgeB oldRating (some 2000) && fltB oldRating (some 2500)
    then w1 * 4.5 / 5 else w1
  let weight : ℚ := if fgeB oldRating (some 2500) then w2 * 4.0 / 5 else w2
  let newRating0 := fdiv (fadd oldRating (fmul (some weight) performedAs)) (some (1 + weight))
  let cap : ℚ := 150 + 1500 / (2 + (c.numRatings : ℚ))
  let nr1 := if fgtB (fsub oldRating newRating0) (some cap) then fsub oldRating (some cap) else newRating0
  let nr2 := if fgtB (fsub nr1 oldRating) (some cap) then fadd oldRating (some cap) else nr1
  let nr3 := if fltB nr2 (some 1) then some 1 else nr2
  { c with
    newRating := some (fround nr3),
    newVolatility := some (if c.numRatings ≠ 0 then
        P.fsqrt (fadd (fdiv (fsq c.volatility) (some (1 + weight)))
                      (fdiv (fsq (fsub nr3 oldRating)) (some weight)))
      else fround (some FIRST_VOLATILITY)) }

/-- The competition factor `matchStdDevEquals` of part_004 lines 281-286:
`sqrt(vtemp/n + rtemp/(n-1))` over the normalised slate. -/
def engineMsd (P : NumPrims) (cs1 : List Coder) : Flt :=
  let n : ℕ := cs1.length
  let rave := fdiv (cs1.foldl (fun a c => fadd a c.rating) (some 0)) (some (n : ℚ))
  let vtemp := cs1.foldl (fun a c => fadd a (fsq c.volatility)) (some 0)
  let rtemp := cs1.foldl (fun a c => fadd a (fsq (fsub c.rating rave))) (some 0)
  P.fsqrt (fadd (fdiv vtemp (some (n : ℚ))) (fdiv rtemp (some ((n : ℚ) - 1))))

/-- The expected-rank/expected-performance pass of part_004 lines 287-292
(the inner sum starts at the self term 0.5 and ranges over every coder). -/
def expectedMap (P : NumPrims) (cs1 : List Coder) : List Coder :=
  let n : ℕ := cs1.length
  cs1.map (fun ci =>
    let est := cs1.foldl (fun e cj =>
      fadd e (winProbability P cj.rating ci.rating cj.volatility ci.volatility)) (some 0.5)
    { ci with expectedRank := some est,
              expectedPerformance := some (fneg (normsinvF P
                (fdiv (fsub est (some 0.5)) (some (n : ℚ))))) })

/-- `runQubitsAlgorithm` of part_004 lines 277-324: normalise first-timers,
compute the competition factor, expected ranks, actual ranks (after
resetting every `actualRank` to 0, line 293), the new rating/volatility
per coder, and finally increment every `numRatings` (line 322). -/
def runQubitsAlgorithm (P : NumPrims) (coders : List Coder) : List Coder :=
  if coders.length = 0 then coders else
  let cs1 := coders.map normalizeFirstTimer
  let cs4 := rankLoop P cs1.length cs1.length 0
    ((expectedMap P cs1).map (fun c => { c with actualRank := 0 }))
  (cs4.map (updateCoder P (engineMsd P cs1))).map
    (fun c => { c with numRatings := c.numRatings + 1 })

/-- `processMarathonRatingsProvisional` of part_004 lines 537-540. -/
def processMarathonRatingsProvisional (P : NumPrims) (coders : List Coder) : List Coder :=
  if coders.length = 0 then coders else runQubitsAlgorithm P coders

/-! ## Relational store -/

/-- A `round` row (prisma schema: `round_id`, `rated_ind`, `contest_id`). -/
structure RoundRow where
  round_id : ℕ
  rated_ind : ℕ
  contest_id : Option ℕ := none
  deriving DecidableEq, Repr

/-- A `long_comp_result` row.  `new_rating`/`new_vol`/`old_rating`/`old_vol`
are nullable integer columns receiving double values — `none` is SQL NULL,
`some f` a stored number (possibly the error value). -/
structure LcrRow where
  round_id : ℕ
  coder_id : ℕ
  attended : Option Char := none
  system_point_total : Option ℚ := none
  old_rating : Option Flt := none
  old_vol : Option Flt := none
  new_rating : Option Flt := none
  new_vol : Option Flt := none
  rated_ind : ℕ := 0
  num_ratings : ℕ := 0
  deriving DecidableEq, Repr

/-- An `algo_rating` row. -/
structure AlgoRow where
  coder_id : ℕ
  algo_rating_type_id : ℕ
  rating : Option Flt := none
  vol : Option Flt := none
  num_ratings : ℕ := 0
  round_id : Option ℕ := none
  highest_rating : Option Flt := none
  lowest_rating : Option Flt := none
  first_rated_round_id : Option ℕ := none
  last_rated_round_id : Option ℕ := none
  deriving DecidableEq, Repr

/-- The three tables; list order models table order for `findFirst`. -/
structure DB where
  rounds : List RoundRow
  lcrs : List LcrRow
  algoRatings : List AlgoRow
  deriving DecidableEq, Repr

/-- Uniqueness of the `(round_id, coder_id)` key on `long_comp_result`
(schema: unique index). -/
def DB.lcrUnique (db : DB) : Prop :=
  db.lcrs.Pairwise (fun a b => a.round_id ≠ b.round_id ∨ a.coder_id ≠ b.coder_id)

/-- Uniqueness of the `(coder_id, algo_rating_type_id)` key on
`algo_rating` (schema: unique index). -/
def DB.algoUnique (db : DB) : Prop :=
  db.algoRatings.Pairwise (fun a b =>
    a.coder_id ≠ b.coder_id ∨ a.algo_rating_type_id ≠ b.algo_rating_type_id)

/-- Uniqueness of the `round_id` primary key. -/
def DB.roundUnique (db : DB) : Prop :=
  db.rounds.Pairwise (fun a b => a.round_id ≠ b.round_id)

instance (db : DB) : Decidable db.lcrUnique := by unfold DB.lcrUnique; infer_instance
instance (db : DB) : Decidable db.algoUnique := by unfold DB.algoUnique; infer_instance
instance (db : DB) : Decidable db.roundUnique := by unfold DB.roundUnique; infer_instance

/-- Database write events, in program order.  Reads are not logged; the
claims speak about writes. -/
inductive Ev where
  | lcrUpd (roundId coderId : ℕ)
  | algoUpd (coderId : ℕ)
  | algoCreate (coderId : ℕ)
  | roundFlip (roundId : ℕ)
  | attendUpd (roundId coderId : ℕ)
  deriving DecidableEq, Repr

/-- The row predicate of every `algo_rating` query:
`coder_id = cid AND algo_rating_type_id = 3`. -/
def algoKey (cid : ℕ) (a : AlgoRow) : Bool :=
  a.coder_id = cid && a.algo_rating_type_id = 3

/-- The `algo_rating.findFirst` query on `(coder_id, 3)` used by the loader
and the Persistor (part_004 lines 393-395 and 428-430). -/
def findAlgo (db : DB) (coderId : ℕ) : Option AlgoRow :=
  db.algoRatings.find? (algoKey coderId)

/-! ## Participant Loader (part_004 lines 370-407) -/

/-- The row selection of `loadCoderData` (part_004 lines 373-387):
`round_id = r`, `attended ∈ {Y, y}`, `new_rating IS NULL`,
`new_vol IS NULL`. -/
def slateFilter (roundId : ℕ) (e : LcrRow) : Bool :=
  e.round_id = roundId && (e.attended = some 'Y' || e.attended = some 'y')
    && e.new_rating = none && e.new_vol = none

/-- Insertion step of the `ORDER BY system_point_total DESC` embedding. -/
def insertScoreDesc (r : LcrRow) : List LcrRow → List LcrRow
  | [] => [r]
  | x :: xs =>
    if x.system_point_total.getD 0 < r.system_point_total.getD 0 then r :: x :: xs
    else x :: insertScoreDesc r xs

/-- The `ORDER BY system_point_total DESC` of the loader query, embedded as
a structural insertion sort (every claim below is invariant under the
ordering; only the permutation matters). -/
def orderByScoreDesc : List LcrRow → List LcrRow
  | [] => []
  | x :: xs => insertScoreDesc x (orderByScoreDesc xs)

/-- `loadCoderData` of part_004 lines 370-407: select the unrated slate
ordered by `system_point_total` descending, and seed each coder from its
`algo_rating` row (or `(0, 0, 0)` when absent).  `score` is
`Number(system_point_total) || 0`. -/
def loadCoderData (roundId : ℕ) (db : DB) : List Coder :=
  let results := orderByScoreDesc (db.lcrs.filter (slateFilter roundId))
  results.map (fun r =>
    let ar := findAlgo db r.coder_id
    { coderId := r.coder_id
      rating := (ar.map (fun a => a.rating.getD (some 0))).getD (some 0)
      volatility := (ar.map (fun a => a.vol.getD (some 0))).getD (some 0)
      numRatings := (ar.map (fun a => a.num_ratings)).getD 0
      score := r.system_point_total.getD 0 })

/-! ## Rating Persistor (part_004 lines 420-481) -/

/-- The `long_comp_result.updateMany` of part_004 lines 433-442. -/
def lcrWrite (roundId : ℕ) (c : Coder) (existingAlgo : Option AlgoRow)
    (nr nv : Flt) (db : DB) : DB :=
  { db with lcrs := db.lcrs.map (fun e =>
      if e.round_id = roundId && e.coder_id = c.coderId then
        { e with rated_ind := 1,
                 old_rating := existingAlgo.bind (fun a => a.rating),
                 old_vol := existingAlgo.bind (fun a => a.vol),
                 new_rating := some nr,
                 new_vol := some nv }
      else e) }

/-- The `round.updateMany` flip of part_004 lines 475-478. -/
def flipRound (roundId : ℕ) (db : DB) : DB :=
  { db with rounds := db.rounds.map (fun r =>
      if r.round_id = roundId then { r with rated_ind := 1 } else r) }

/-- One iteration of the Persistor loop (part_004 lines 423-472): read the
existing `algo_rating` row, update `long_comp_result`, then update or
create `algo_rating`. -/
def persistOne (roundId : ℕ) (c : Coder) (db : DB) : DB × List Ev :=
  let nr : Flt := c.newRating.getD c.rating
  let nv : Flt := c.newVolatility.getD c.volatility
  let existingAlgo := findAlgo db c.coderId
  let db1 := lcrWrite roundId c existingAlgo nr nv db
  match existingAlgo with
  | some _ =>
    ({ db1 with algoRatings := db1.algoRatings.map (fun a =>
        if algoKey c.coderId a then
          { a with rating := some nr, vol := some nv, round_id := some roundId,
                   num_ratings := a.num_ratings + 1,
                   last_rated_round_id := some roundId }
        else a) },
     [Ev.lcrUpd roundId c.coderId, Ev.algoUpd c.coderId])
  | none =>
    ({ db1 with algoRatings := db1.algoRatings ++
        [{ coder_id := c.coderId, algo_rating_type_id := 3,
           rating := some nr, vol := some nv, num_ratings := 1,
           round_id := some roundId,
           highest_rating := some nr, lowest_rating := some nr,
           first_rated_round_id := some roundId,
           last_rated_round_id := some roundId }] },
     [Ev.lcrUpd roundId c.coderId, Ev.algoCreate c.coderId])

/-- The Persistor loop over the coder list. -/
def persistList (roundId : ℕ) : List Coder → DB → DB × List Ev
  | [], db => (db, [])
  | c :: cs, db =>
    let od := persistOne roundId c db
    let rest := persistList roundId cs od.1
    (rest.1, od.2 ++ rest.2)

/-- `persistRatings` of part_004 lines 420-481: persist every coder, then
mark the round as rated. -/
def persistRatings (roundId : ℕ) (cs : List Coder) (db : DB) : DB × List Ev :=
  let body := persistList roundId cs db
  (flipRound roundId body.1, body.2 ++ [Ev.roundFlip roundId])

/-! ## Round calculation (part_004 lines 496-604) -/

/-- Result of `runRatingProcess`. -/
inductive Status where
  | success
  | alreadyCalculated
  deriving DecidableEq, Repr

/-- `runRatingProcess` of part_004 lines 496-529: load the slate; empty
slate returns `ALREADY_CALCULATED` without writes; otherwise run the
provisional pass over all coders, persist the first-timers, then run the
non-provisional pass over the experienced coders and persist them. -/
def runRatingProcess (P : NumPrims) (roundId : ℕ) (db : DB) : DB × List Ev × Status :=
  let data := loadCoderData roundId db
  if data.length = 0 then (db, [], Status.alreadyCalculated)
  else
    let ratedProvData := processMarathonRatingsProvisional P data
    let firstTimers := ratedProvData.filter (fun c => c.numRatings = 1)
    let step1 := if firstTimers.length > 0 then persistRatings roundId firstTimers db
      else (db, [])
    let nonProvData := data.filter (fun c => c.numRatings > 0)
    let step2 := if nonProvData.length > 0 then
        persistRatings roundId (processMarathonRatingsProvisional P nonProvData) step1.1
      else (step1.1, [])
    (step2.1, step1.2 ++ step2.2, Status.success)

/-- A V5 submission, reduced to the field the reconciler consumes. -/
structure Submission where
  memberId : ℕ
  deriving DecidableEq, Repr

/-- One step of the attendance pre-processing loop (part_004 lines
578-588): if the submission's member matches a snapshot entry with
`attended = 'N'`, update that member's row of the round to
`attended = 'Y'`. -/
def reconcileStep (roundId : ℕ) (lcrEntries : List LcrRow)
    (acc : DB × List Ev) (s : Submission) : DB × List Ev :=
  match lcrEntries.find? (fun e => e.coder_id = s.memberId) with
  | some m =>
    if m.attended = some 'N' then
      ({ acc.1 with lcrs := acc.1.lcrs.map (fun e =>
          if e.round_id = roundId && e.coder_id = m.coder_id then
            { e with attended := some 'Y' } else e) },
       acc.2 ++ [Ev.attendUpd roundId m.coder_id])
    else acc
  | none => acc

/-- The attendance pre-processing inside `calculate` (part_004 lines
569-588): for every final submission whose member matches a
`long_comp_result` entry of the round with `attended = 'N'`, set
`attended = 'Y'`.  The entry snapshot is fetched once, before the loop. -/
def reconcileAttendance (roundId : ℕ) (finalSubs : List Submission) (db : DB) :
    DB × List Ev :=
  finalSubs.foldl (reconcileStep roundId (db.lcrs.filter (fun e => e.round_id = roundId)))
    (db, [])

/-- The round-id resolution of part_004 lines 560-563: the round whose
`contest_id` is the legacy id, falling back to the legacy id itself. -/
def resolveRoundId (legacyId : ℕ) (db : DB) : ℕ :=
  match db.rounds.find? (fun r => r.contest_id = some legacyId) with
  | some r => r.round_id
  | none => legacyId

/-- `calculate` of part_004 lines 553-604: resolve the round id from the
legacy contest id (falling back to the legacy id itself), reconcile
attendance — the external submission fetch is a parameter, `none` modelling
the caught fetch failure — then run the rating process. -/
def calculate (P : NumPrims) (legacyId : ℕ) (finalSubs : Option (List Submission))
    (db : DB) : DB × List Ev × Status :=
  let roundId := resolveRoundId legacyId db
  let rec1 := match finalSubs with
    | some subs => reconcileAttendance roundId subs db
    | none => (db, [])
  let run := runRatingProcess P roundId rec1.1
  (run.1, rec1.2 ++ run.2.1, run.2.2)

/-! ## Alternate Persistor (src/services/MarathonRatingsService.ts 74-158) -/

/-- One iteration of the alternate Persistor loop
(MarathonRatingsService.ts lines 77-148): update `long_comp_result`
(including its `num_ratings` column), upsert `algo_rating`, then — only
when the row pre-existed — refresh `highest_rating`/`lowest_rating`
against the snapshot taken before the update. -/
def persistOneB (roundId : ℕ) (c : Coder) (db : DB) : DB :=
  let nr : Flt := c.newRating.getD c.rating
  let nv : Flt := c.newVolatility.getD c.volatility
  let db1 := { db with lcrs := db.lcrs.map (fun e =>
      if e.round_id = roundId && e.coder_id = c.coderId then
        { e with new_rating := some nr, new_vol := some nv, rated_ind := 1,
                 num_ratings := c.numRatings + 1 }
      else e) }
  let existingAlgoRating := findAlgo db1 c.coderId
  let db2 := match existingAlgoRating with
    | some _ =>
      { db1 with algoRatings := db1.algoRatings.map (fun a =>
          if algoKey c.coderId a then
            { a with rating := some nr, vol := some nv,
                     num_ratings := c.numRatings + 1,
                     last_rated_round_id := some roundId }
          else a) }
    | none =>
      { db1 with algoRatings := db1.algoRatings ++
          [{ coder_id := c.coderId, algo_rating_type_id := 3,
             rating := some nr, vol := some nv, num_ratings := 1,
             last_rated_round_id := some roundId,
             highest_rating := some nr, lowest_rating := some nr,
             first_rated_round_id := some roundId }] }
  match existingAlgoRating with
  | some ex =>
    let hi := fgtB nr (ex.highest_rating.getD (some 0))
    let lo := fltB nr (ex.lowest_rating.getD (some 9999))
    if hi || lo then
      { db2 with algoRatings := db2.algoRatings.map (fun a =>
          if algoKey c.coderId a then
            { a with highest_rating := if hi then some nr else a.highest_rating,
                     lowest_rating := if lo then some nr else a.lowest_rating }
          else a) }
    else db2
  | none => db2

/-- `persistRatings` of MarathonRatingsService.ts lines 74-158: the coder
loop followed by the round flip. -/
def persistRatingsB (roundId : ℕ) (cs : List Coder) (db : DB) : DB :=
  flipRound roundId (cs.foldl (fun d c => persistOneB roundId c d) db)

/-! ## Kafka rating-message guard (src/services/KafkaHandlerService.ts) -/

/-- The payload of a rating message as the handler reads it:
`payload.roundId` and the `payload.round_id` fallback. -/
structure RatingPayload where
  roundId : Option ℕ := none
  round_id : Option ℕ := none
  deriving DecidableEq, Repr

/-- `handleMarathonRating` of KafkaHandlerService.ts lines 72-92 (and the
identical guard of `handleAlgorithmRating`, lines 98-114):
`const roundId = payload.roundId || payload.round_id; if (!roundId)
{ log; return; }`.  The result is the round id passed on to
`calculateMarathonRatings` / `loadMarathonRatings` / `loadCoderRatings`,
or `none` when the guard returns early and no rating calculation (hence no
database access) is performed. -/
def handleMarathonRating (p : RatingPayload) : Option ℕ :=
  let r := match p.roundId with
    | some n => if n ≠ 0 then some n else p.round_id
    | none => p.round_id
  match r with
  | some n => if n ≠ 0 then some n else none
  | none => none

/-! ## Autopilot event router -/

/-- Challenge details returned by the V5 lookup, reduced to the fields the
router consumes (`id`, `legacyId`, `legacy.subTrack`). -/
structure Challenge where
  id : String
  legacyId : ℕ
  subTrack : Option String := none
  deriving DecidableEq, Repr

/-- An autopilot notification payload (`phaseTypeName`, `state`,
`projectId`). -/
structure AutopilotPayload where
  phaseTypeName : Option String := none
  state : Option String := none
  projectId : Option ℕ := none
  deriving DecidableEq, Repr

/-- Modelled from the spec: the autopilot branch of the event router
(spec §4.6, Topic A).  The `KafkaHandlerService.handle` entry point that
app.ts invokes is not among the sources (the KafkaHandlerService.ts
present is an alternate router without the autopilot logic); per the spec,
only when `phaseTypeName` equals `"review"` and `state` equals `"end"`
(both case-insensitively) are challenge details fetched by
`legacyId = projectId`, and only if the returned `legacy.subTrack` equals
`"marathon_match"` (case-insensitively) is `calculate(challenge.id,
challenge.legacyId)` invoked.  The challenge lookup is a parameter; the
result is the argument pair of the `calculate` invocation, or `none` when
`calculate` is not invoked. -/
def handleAutopilot (lookup : ℕ → Option Challenge) (p : AutopilotPayload) :
    Option (String × ℕ) :=
  if p.phaseTypeName.map String.toLower = some "review"
      ∧ p.state.map String.toLower = some "end" then
    match p.projectId.bind lookup with
    | some ch =>
      if ch.subTrack.map String.toLower = some "marathon_match" then
        some (ch.id, ch.legacyId)
      else none
    | none => none
  else none

/-! ## Observations used by the statements -/

/-- The persisted `num_ratings` of `(cid, 3)`, with 0 for a missing row
(spec §3: `num_ratings = 0` iff no row exists). -/
def algoNum (db : DB) (cid : ℕ) : ℕ :=
  match findAlgo db cid with
  | some a => a.num_ratings
  | none => 0

/-- The per-row postcondition of claim C1 on `long_comp_result`: the row
of `(r, cid)` carries non-null `new_rating` and `new_vol` and
`rated_ind = 1`. -/
def ratedPred (r cid : ℕ) (e : LcrRow) : Prop :=
  e.round_id = r → e.coder_id = cid →
    ((∃ v, e.new_rating = some v) ∧ (∃ v, e.new_vol = some v) ∧ e.rated_ind = 1)

/-- The sum of assigned actual ranks over a slate. -/
def sumRank (cs : List Coder) : ℚ := (cs.map (fun c => c.actualRank)).sum

/-- The scores of the not-yet-ranked coders of a slate. -/
def unrankedScores (cs : List Coder) : List ℚ :=
  (cs.filter (fun c => c.actualRank = 0)).map (fun c => c.score)

/-! ## Concrete instances used by counterexamples and witnesses -/

/-- A concrete choice of the transcendental primitives (the identity
stand-ins); counterexamples instantiate the parameterised engine here. -/
def prims0 : NumPrims := ⟨fun q => q, fun q => q, fun q => q, 3⟩

/-- An experienced participant forming a single-coder slate. -/
def cC2 : Coder :=
  { coderId := 1, rating := some 1500, volatility := some 400, numRatings := 5, score := 10 }

/-- A first-timer as the loader materialises one (`(0, 0, 0)` seed). -/
def cC7 : Coder :=
  { coderId := 7, rating := some 0, volatility := some 0, numRatings := 0, score := 5 }

/-- A three-coder slate with a tied top score. -/
def slateC8 : List Coder :=
  [{ coderId := 1, rating := some 1500, volatility := some 400, numRatings := 5, score := 5 },
   { coderId := 2, rating := some 1350, volatility := some 450, numRatings := 3, score := 5 },
   { coderId := 3, rating := some 0, volatility := some 0, numRatings := 0, score := 3 }]

/-- A seeded round 10001 with two experienced coders and one first-timer
(after the seed data of prisma/seed.ts). -/
def dbW : DB :=
  { rounds := [{ round_id := 10001, rated_ind := 0, contest_id := some 777 }],
    lcrs := [
      { round_id := 10001, coder_id := 1001, attended := some 'Y',
        system_point_total := some 95 },
      { round_id := 10001, coder_id := 1002, attended := some 'Y',
        system_point_total := some 88 },
      { round_id := 10001, coder_id := 1003, attended := some 'Y',
        system_point_total := some 72 }],
    algoRatings := [
      { coder_id := 1001, algo_rating_type_id := 3, rating := some (some 1500),
        vol := some (some 400), num_ratings := 5,
        highest_rating := some (some 1550), lowest_rating := some (some 1400) },
      { coder_id := 1002, algo_rating_type_id := 3, rating := some (some 1350),
        vol := some (some 450), num_ratings := 3 }] }

/-- An already-rated round 1 (`contest_id = 77`) whose only participant is
marked `attended = 'N'` and unrated. -/
def dbC3 : DB :=
  { rounds := [{ round_id := 1, rated_ind := 1, contest_id := some 77 }],
    lcrs := [{ round_id := 1, coder_id := 5, attended := some 'N',
               system_point_total := some 10 }],
    algoRatings := [] }

/-- An already-rated round 2 (`contest_id = 88`) with an empty slate. -/
def dbC3R : DB :=
  { rounds := [{ round_id := 2, rated_ind := 1, contest_id := some 88 }],
    lcrs := [{ round_id := 2, coder_id := 6, attended := some 'Y',
               system_point_total := some 10, new_rating := some (some 1300),
               new_vol := some (some 350), rated_ind := 1 }],
    algoRatings := [] }

/-- An existing AlgoRating row for coder 9 with recorded extrema
1550/1400. -/
def arC6 : AlgoRow :=
  { coder_id := 9, algo_rating_type_id := 3, rating := some (some 1500),
    vol := some (some 400), num_ratings := 5,
    highest_rating := some (some 1550), lowest_rating := some (some 1400) }

/-- A store holding only `arC6`. -/
def dbC6 : DB := { rounds := [], lcrs := [], algoRatings := [arC6] }

/-- A coder whose engine result 1600 exceeds the stored maximum 1550. -/
def cC6 : Coder :=
  { coderId := 9, rating := some 1500, volatility := some 400, numRatings := 5,
    score := 10, newRating := some (some 1600), newVolatility := some (some 300) }

/-! ## Basic facts about the float model -/

@[simp] lemma fadd_none_right (x : Flt) : fadd x none = none := by cases x <;> rfl
@[simp] lemma fadd_none_left (x : Flt) : fadd none x = none := rfl
@[simp] lemma fsub_none_right (x : Flt) : fsub x none = none := by cases x <;> rfl
@[simp] lemma fsub_none_left (x : Flt) : fsub none x = none := rfl
@[simp] lemma fmul_none_right (x : Flt) : fmul x none = none := by cases x <;> rfl
@[simp] lemma fmul_none_left (x : Flt) : fmul none x = none := rfl
@[simp] lemma fdiv_none_right (x : Flt) : fdiv x none = none := by cases x <;> rfl
@[simp] lemma fdiv_none_left (x : Flt) : fdiv none x = none := rfl
@[simp] lemma fsq_none : fsq none = none := rfl
@[simp] lemma fgtB_none_left (x : Flt) : fgtB none x = false := rfl
@[simp] lemma fgtB_none_right (x : Flt) : fgtB x none = false := by cases x <;> rfl
@[simp] lemma fltB_none_left (x : Flt) : fltB none x = false := rfl
@[simp] lemma fltB_none_right (x : Flt) : fltB x none = false := by cases x <;> rfl
@[simp] lemma fround_none : fround none = none := rfl
@[simp] lemma fsqrt_none (P : NumPrims) : P.fsqrt none = none := rfl

@[simp] lemma fdiv_one (x : Flt) : fdiv x (some 1) = x := by
  cases x with
  | none => rfl
  | some a => simp [fdiv]

lemma fsub_self (x : Flt) : x ≠ none → fsub x x = some 0 := by
  cases x with
  | none => simp
  | some a => intro _; simp [fsub]

@[simp] lemma fsq_some (a : ℚ) : fsq (some a) = some (a * a) := rfl

lemma round_first_volatility : fround (some FIRST_VOLATILITY) = some 385 := by
  norm_num [fround, FIRST_VOLATILITY, round_eq]

/-! ## Shape lemmas for the engine -/

/-- The fields of a coder that the actual-rank loop never touches. -/
def Coder.stable (c : Coder) :
    ℕ × Flt × Flt × ℕ × ℚ × Option Flt × Option Flt × Option Flt × Option Flt :=
  (c.coderId, c.rating, c.volatility, c.numRatings, c.score,
   c.expectedRank, c.expectedPerformance, c.newRating, c.newVolatility)

lemma assignRanks_stable (P : NumPrims) (m : ℚ) (i k n : ℕ) (cs : List Coder) :
    (assignRanks P m i k n cs).map Coder.stable = cs.map Coder.stable := by
  unfold assignRanks
  rw [List.map_map]
  apply List.map_congr_left
  intro c _
  by_cases h : c.score = m <;> simp [h, Coder.stable]

lemma rankLoop_stable (P : NumPrims) (n : ℕ) :
    ∀ fuel i cs, (rankLoop P n fuel i cs).map Coder.stable = cs.map Coder.stable := by
  intro fuel
  induction fuel with
  | zero => intro i cs; rfl
  | succ f ih =>
    intro i cs
    unfold rankLoop
    by_cases h : i < n
    · simp only [h, if_true]
      rcases hsm : scanMax cs with ⟨mo, k⟩
      cases mo with
      | some m => simpa [assignRanks_stable] using ih (i + k) (assignRanks P m i k n cs)
      | none => rfl
    · simp [h]

lemma rankLoop_length (P : NumPrims) (n fuel i : ℕ) (cs : List Coder) :
    (rankLoop P n fuel i cs).length = cs.length := by
  have := congrArg List.length (rankLoop_stable P n fuel i cs)
  simpa using this

lemma updateCoder_coderId (P : NumPrims) (msd : Flt) (c : Coder) :
    (updateCoder P msd c).coderId = c.coderId := rfl

lemma updateCoder_numRatings (P : NumPrims) (msd : Flt) (c : Coder) :
    (updateCoder P msd c).numRatings = c.numRatings := rfl

lemma updateCoder_rating (P : NumPrims) (msd : Flt) (c : Coder) :
    (updateCoder P msd c).rating = c.rating := rfl

lemma updateCoder_volatility (P : NumPrims) (msd : Flt) (c : Coder) :
    (updateCoder P msd c).volatility = c.volatility := rfl

lemma updateCoder_actualRank (P : NumPrims) (msd : Flt) (c : Coder) :
    (updateCoder P msd c).actualRank = c.actualRank := rfl

lemma updateCoder_newVolatility_first (P : NumPrims) (msd : Flt) (c : Coder)
    (h : c.numRatings = 0) :
    (updateCoder P msd c).newVolatility = some (some 385) := by
  show some (if c.numRatings ≠ 0 then _ else fround (some FIRST_VOLATILITY)) = _
  simp [h, round_first_volatility]

/-- Element-wise behaviour of the engine for the fields the service layer
and the first-timer claims consume: the coder at position `j` keeps its
id, has `numRatings` incremented, carries the normalised rating/volatility
pair, and — if it entered as a first-timer — leaves with volatility
exactly `round FIRST_VOLATILITY = 385`. -/
lemma engine_elem (P : NumPrims) (cs : List Coder) (j : ℕ) (c : Coder)
    (hc : cs[j]? = some c) :
    ∃ d, (runQubitsAlgorithm P cs)[j]? = some d ∧
      d.coderId = c.coderId ∧
      d.numRatings = c.numRatings + 1 ∧
      d.rating = (normalizeFirstTimer c).rating ∧
      d.volatility = (normalizeFirstTimer c).volatility ∧
      (c.numRatings = 0 → d.newVolatility = some (some 385)) := by
  have hne : cs.length ≠ 0 := by
    intro h0
    rw [List.length_eq_zero] at h0
    subst h0
    simp at hc
  set nc := normalizeFirstTimer c with hnc
  set cs1 := cs.map normalizeFirstTimer with hcs1
  have h1 : cs1[j]? = some nc := by rw [hcs1, List.getElem?_map, hc]; rfl
  set cs3 := (expectedMap P cs1).map (fun c => { c with actualRank := 0 }) with hcs3
  obtain ⟨e3, he3, he3c, he3r, he3v, he3n⟩ :
      ∃ e3, cs3[j]? = some e3 ∧ e3.coderId = nc.coderId ∧ e3.rating = nc.rating ∧
        e3.volatility = nc.volatility ∧ e3.numRatings = nc.numRatings := by
    rw [hcs3]
    simp only [expectedMap, List.getElem?_map, h1, Option.map_some']
    exact ⟨_, rfl, rfl, rfl, rfl, rfl⟩
  set cs4 := rankLoop P cs1.length cs1.length 0 cs3 with hcs4
  have hst : (cs4[j]?).map Coder.stable = some e3.stable := by
    have h := congrArg (fun l => l[j]?) (rankLoop_stable P cs1.length cs1.length 0 cs3)
    simp only [List.getElem?_map] at h
    rw [← hcs4] at h
    rw [h, he3, Option.map_some']
  obtain ⟨d4, hd4, hd4s⟩ : ∃ d4, cs4[j]? = some d4 ∧ Coder.stable d4 = Coder.stable e3 := by
    cases h4 : cs4[j]? with
    | none => rw [h4] at hst; simp at hst
    | some d4 =>
      rw [h4, Option.map_some'] at hst
      exact ⟨d4, rfl, Option.some.inj hst⟩
  have hcomp : d4.coderId = e3.coderId ∧ d4.rating = e3.rating ∧
      d4.volatility = e3.volatility ∧ d4.numRatings = e3.numRatings := by
    have h := hd4s
    simp only [Coder.stable, Prod.mk.injEq] at h
    exact ⟨h.1, h.2.1, h.2.2.1, h.2.2.2.1⟩
  set d5 := updateCoder P (engineMsd P cs1) d4 with hd5
  refine ⟨{ d5 with numRatings := d5.numRatings + 1 }, ?_, ?_, ?_, ?_, ?_, ?_⟩
  · show (runQubitsAlgorithm P cs)[j]? = _
    unfold runQubitsAlgorithm
    simp only [hne, if_false]
    rw [← hcs1, List.getElem?_map, List.getElem?_map, ← hcs3, ← hcs4, hd4]
    rfl
  · show d5.coderId = c.coderId
    rw [hd5, updateCoder_coderId, hcomp.1, he3c, hnc]
    unfold normalizeFirstTimer
    split <;> rfl
  · show d5.numRatings + 1 = c.numRatings + 1
    rw [hd5, updateCoder_numRatings, hcomp.2.2.2, he3n, hnc]
    unfold normalizeFirstTimer
    split <;> rfl
  · show d5.rating = nc.rating
    rw [hd5, updateCoder_rating, hcomp.2.1, he3r]
  · show d5.volatility = nc.volatility
    rw [hd5, updateCoder_volatility, hcomp.2.2.1, he3v]
  · intro h0
    have hn4 : d4.numRatings = 0 := by
      rw [hcomp.2.2.2, he3n, hnc]
      simp [normalizeFirstTimer, h0]
    show d5.newVolatility = _
    rw [hd5]
    exact updateCoder_newVolatility_first _ _ _ hn4

/-- The engine preserves coder ids positionally and increments every
`numRatings` by one. -/
lemma engine_idnum (P : NumPrims) (cs : List Coder) :
    (runQubitsAlgorithm P cs).map (fun c => (c.coderId, c.numRatings)) =
      cs.map (fun c => (c.coderId, c.numRatings + 1)) := by
  by_cases hne : cs.length = 0
  · rw [List.length_eq_zero] at hne; subst hne; rfl
  unfold runQubitsAlgorithm
  simp only [hne, if_false]
  set cs1 := cs.map normalizeFirstTimer with hcs1
  set cs3 := (expectedMap P cs1).map (fun c => { c with actualRank := 0 }) with hcs3
  set cs4 := rankLoop P cs1.length cs1.length 0 cs3 with hcs4
  have hst := rankLoop_stable P cs1.length cs1.length 0 cs3
  rw [← hcs4] at hst
  have step1 : ((cs4.map (updateCoder P (engineMsd P cs1))).map
      (fun c => { c with numRatings := c.numRatings + 1 })).map
        (fun c => (c.coderId, c.numRatings))
      = cs4.map (fun c => (c.coderId, c.numRatings + 1)) := by
    rw [List.map_map, List.map_map]; rfl
  have step2 : cs4.map (fun c => (c.coderId, c.numRatings + 1)) =
      cs3.map (fun c => (c.coderId, c.numRatings + 1)) := by
    have h := congrArg (List.map
      (fun t : ℕ × Flt × Flt × ℕ × ℚ × Option Flt × Option Flt × Option Flt × Option Flt =>
        (t.1, t.2.2.2.1 + 1))) hst
    simpa [List.map_map, Function.comp_def, Coder.stable] using h
  have step3 : cs3.map (fun c => (c.coderId, c.numRatings + 1)) =
      cs.map (fun c => (c.coderId, c.numRatings + 1)) := by
    rw [hcs3]
    unfold expectedMap
    rw [hcs1]
    simp only [List.map_map]
    apply List.map_congr_left
    intro c _
    simp only [Function.comp_def]
    unfold normalizeFirstTimer
    split <;> rfl
  rw [step1, step2, step3]

lemma engine_ids (P : NumPrims) (cs : List Coder) :
    (runQubitsAlgorithm P cs).map (fun c => c.coderId) = cs.map (fun c => c.coderId) := by
  have h := congrArg (List.map (fun t : ℕ × ℕ => t.1)) (engine_idnum P cs)
  simpa [List.map_map, Function.comp_def] using h

lemma engine_length (P : NumPrims) (cs : List Coder) :
    (runQubitsAlgorithm P cs).length = cs.length := by
  have h := congrArg List.length (engine_idnum P cs)
  simpa using h

/-- From the paired id/numRatings map equality, the first-timer filter of
an engine output lines up with the `numRatings = 0` filter of its input. -/
lemma filter_map_of_idnum :
    ∀ (l1 l2 : List Coder),
      l1.map (fun c => (c.coderId, c.numRatings)) =
        l2.map (fun c => (c.coderId, c.numRatings + 1)) →
      (l1.filter (fun c => c.numRatings = 1)).map (fun c => c.coderId) =
        (l2.filter (fun c => c.numRatings = 0)).map (fun c => c.coderId) := by
  intro l1 l2
  induction l2 generalizing l1 with
  | nil =>
    intro h
    simp only [List.map_nil, List.map_eq_nil_iff] at h
    subst h
    rfl
  | cons b t ih =>
    intro h
    cases l1 with
    | nil => simp at h
    | cons a t1 =>
      simp only [List.map_cons, List.cons.injEq, Prod.mk.injEq] at h
      obtain ⟨⟨hid, hnum⟩, ht⟩ := h
      by_cases h0 : b.numRatings = 0
      · have h1 : a.numRatings = 1 := by omega
        have hr := ih t1 ht
        simp [List.filter_cons, h0, h1, hid, hr]
      · have h1 : a.numRatings ≠ 1 := by omega
        have hr := ih t1 ht
        simp [List.filter_cons, h0, h1, hr]

/-- The first-timers retained after the provisional pass carry exactly the
ids of the slate coders that entered with `numRatings = 0`. -/
lemma engine_firstTimers_ids (P : NumPrims) (cs : List Coder) :
    ((runQubitsAlgorithm P cs).filter (fun c => c.numRatings = 1)).map (fun c => c.coderId) =
      (cs.filter (fun c => c.numRatings = 0)).map (fun c => c.coderId) :=
  filter_map_of_idnum _ _ (engine_idnum P cs)

/-! ## Single-participant behaviour of the engine -/

/-- With a single participant the competition factor is the error value:
`rtemp = 0` and `n - 1 = 0`, so `rtemp/(n-1)` is `0/0` (NaN in IEEE as
well), and the outer `sqrt` propagates it. -/
lemma fdiv_zero_den (x : Flt) : fdiv x (some 0) = none := by
  cases x <;> simp [fdiv]

lemma engineMsd_single (P : NumPrims) (c : Coder) : engineMsd P [c] = none := by
  unfold engineMsd
  have hz : ((1 : ℕ) : ℚ) - 1 = 0 := by norm_num
  simp only [List.foldl_cons, List.foldl_nil, List.length_singleton, hz,
    fdiv_zero_den, fadd_none_right, fsqrt_none]

/-- With an error-valued competition factor the per-coder update produces
an error-valued rating, and an error-valued volatility except in the
first-timer branch, which writes `round FIRST_VOLATILITY = 385`. -/
lemma updateCoder_nan (P : NumPrims) (c : Coder) :
    (updateCoder P none c).newRating = some none ∧
    (updateCoder P none c).newVolatility =
      some (if c.numRatings = 0 then some 385 else none) := by
  unfold updateCoder
  constructor
  · simp
  · by_cases h0 : c.numRatings = 0
    · simp only [h0]
      norm_num [fround, round_eq, FIRST_VOLATILITY]
    · simp [h0]

lemma normalize_numRatings (c : Coder) :
    (normalizeFirstTimer c).numRatings = c.numRatings := by
  unfold normalizeFirstTimer; split <;> rfl

/-- On a singleton slate the engine reduces to the NaN-valued update of a
single coder whose `numRatings` matches the input's. -/
lemma engine_single (P : NumPrims) (c : Coder) :
    ∃ d4 : Coder, d4.numRatings = c.numRatings ∧
      runQubitsAlgorithm P [c] =
        [{ updateCoder P none d4 with
            numRatings := (updateCoder P none d4).numRatings + 1 }] := by
  have hne : ¬ ([c] : List Coder).length = 0 := by simp
  unfold runQubitsAlgorithm
  simp only [hne, if_false]
  have hmsd : engineMsd P ([c].map normalizeFirstTimer) = none :=
    engineMsd_single P (normalizeFirstTimer c)
  rw [hmsd]
  set cs3 := (expectedMap P ([c].map normalizeFirstTimer)).map
    (fun c => { c with actualRank := 0 }) with hcs3
  set cs4 := rankLoop P ([c].map normalizeFirstTimer).length
    ([c].map normalizeFirstTimer).length 0 cs3 with hcs4
  have hlen3 : cs3.length = 1 := by rw [hcs3]; simp [expectedMap]
  have hlen4 : cs4.length = 1 := by rw [hcs4, rankLoop_length]; exact hlen3
  obtain ⟨d4, hd4⟩ := List.length_eq_one.mp hlen4
  have hst := rankLoop_stable P ([c].map normalizeFirstTimer).length
    ([c].map normalizeFirstTimer).length 0 cs3
  rw [← hcs4, hd4, hcs3] at hst
  simp only [expectedMap, List.map_map, List.map_cons, List.map_nil] at hst
  have hse := (List.cons.injEq _ _ _ _).mp hst |>.1
  have hnum : d4.numRatings = c.numRatings := by
    have h := congrArg (fun t =>
      (t : ℕ × Flt × Flt × ℕ × ℚ × Option Flt × Option Flt × Option Flt × Option Flt).2.2.2.1) hse
    simpa [Coder.stable, Function.comp_def, normalize_numRatings] using h
  exact ⟨d4, hnum, by rw [hd4]; rfl⟩

/-! ## Claim C2 -/

/-- C2 counterexample: on the single-participant slate `[cC2]`
(rating 1500, volatility 400, 5 prior ratings), the engine returns
`new_rating = NaN` and `new_volatility = NaN` — not the participant's
rating and volatility, so `calculate` is not a no-op for `n = 1` as the
claim states. -/
theorem C2_counterexample :
    (runQubitsAlgorithm prims0 [cC2]).map (fun d => (d.newRating, d.newVolatility)) =
      [(some none, some none)] ∧
    cC2.rating = some 1500 ∧ cC2.volatility = some 400 ∧
    (some none : Option Flt) ≠ some (some 1500) ∧
    (some none : Option Flt) ≠ some (some 400) := by
  refine ⟨?_, rfl, rfl, by simp, by simp⟩
  obtain ⟨d4, hnum, heq⟩ := engine_single prims0 cC2
  rw [heq, List.map_cons, List.map_nil]
  show [((updateCoder prims0 none d4).newRating, (updateCoder prims0 none d4).newVolatility)] = _
  have h := updateCoder_nan prims0 d4
  rw [h.1, h.2, hnum]
  rfl

/-- C2 (amended): the engine has no single-participant special case.  For
`n = 1` the competition factor is the error value NaN (`rtemp/(n-1)` is
`0/0`), which propagates: `new_rating` is NaN rather than the old rating,
and `new_volatility` is NaN for an experienced participant, while a
first-timer receives the constant 385 (not its volatility 515).  This
holds for every choice of the transcendental primitives. -/
theorem C2_theorem (P : NumPrims) (c : Coder) :
    (runQubitsAlgorithm P [c]).map (fun d => (d.newRating, d.newVolatility)) =
      [(some none, some (if c.numRatings = 0 then some 385 else none))] := by
  obtain ⟨d4, hnum, heq⟩ := engine_single P c
  rw [heq, List.map_cons, List.map_nil]
  show [((updateCoder P none d4).newRating, (updateCoder P none d4).newVolatility)] = _
  have h := updateCoder_nan P d4
  rw [h.1, h.2, hnum]

/-! ## Claim C7 -/

/-- C7: every participant entering the engine with `num_ratings = 0` is
treated as rating 1200 and volatility 515 (the engine overwrites its
rating pair in place), and its resulting `new_volatility` is exactly 385 —
for every slate containing it and every choice of the transcendental
primitives. -/
theorem C7_theorem (P : NumPrims) (cs : List Coder) (j : ℕ) (c : Coder)
    (hc : cs[j]? = some c) (h0 : c.numRatings = 0) :
    ((runQubitsAlgorithm P cs)[j]?).map (fun d => (d.rating, d.volatility, d.newVolatility))
      = some (some 1200, some 515, some (some 385)) := by
  obtain ⟨d, hd, _, _, hr, hv, hnv⟩ := engine_elem P cs j c hc
  rw [hd, Option.map_some']
  have hrn : (normalizeFirstTimer c).rating = some 1200 := by
    simp [normalizeFirstTimer, h0]
  have hvn : (normalizeFirstTimer c).volatility = some 515 := by
    simp [normalizeFirstTimer, h0]
  rw [hr, hv, hrn, hvn, hnv h0]

/-- C7 witness: the loader-seeded first-timer `cC7` on a singleton slate. -/
theorem C7_witness :
    ([cC7][0]? = some cC7) ∧ cC7.numRatings = 0 ∧
    ((runQubitsAlgorithm prims0 [cC7])[0]?).map
        (fun d => (d.rating, d.volatility, d.newVolatility))
      = some (some 1200, some 515, some (some 385)) :=
  ⟨rfl, rfl, C7_theorem prims0 [cC7] 0 cC7 rfl rfl⟩

/-! ## Claim C9 -/

/-- C9: on the autopilot topic, `calculate` is invoked exactly when
`phaseTypeName` is `"review"` (case-insensitively), `state` is `"end"`
(case-insensitively), and the challenge fetched by `legacyId = projectId`
exists with `legacy.subTrack` equal to `"marathon_match"`
(case-insensitively); for every other message the router never invokes
`calculate`.  (`handleAutopilot` is modelled from the spec, §4.6 Topic A.) -/
theorem C9_theorem (lookup : ℕ → Option Challenge) (p : AutopilotPayload) :
    (∃ x, handleAutopilot lookup p = some x) ↔
      (p.phaseTypeName.map String.toLower = some "review" ∧
       p.state.map String.toLower = some "end" ∧
       ∃ ch, p.projectId.bind lookup = some ch ∧
         ch.subTrack.map String.toLower = some "marathon_match") := by
  unfold handleAutopilot
  split
  case isTrue h =>
    cases hch : p.projectId.bind lookup with
    | none =>
      simp only [hch]
      constructor
      · rintro ⟨x, hx⟩
        simp at hx
      · rintro ⟨-, -, ch, hch', -⟩
        simp at hch'
    | some ch =>
      simp only [hch]
      by_cases hsub : ch.subTrack.map String.toLower = some "marathon_match"
      · constructor
        · intro _
          exact ⟨h.1, h.2, ch, rfl, hsub⟩
        · intro _
          exact ⟨(ch.id, ch.legacyId), by simp [hsub]⟩
      · constructor
        · rintro ⟨x, hx⟩
          simp [hsub] at hx
        · rintro ⟨-, -, ch', hch', hsub'⟩
          cases Option.some.inj hch'
          exact absurd hsub' hsub
  case isFalse h =>
    constructor
    · rintro ⟨x, hx⟩
      simp at hx
    · rintro ⟨ha, hb, -⟩
      exact absurd ⟨ha, hb⟩ h

/-! ## Claim C10 -/

/-- C10 counterexample: an incoming rating message whose payload has no
`roundId` field but carries `round_id = 7` does trigger the rating
calculation (with round 7), so the handler does not simply log and return
whenever `roundId` is absent. -/
theorem C10_counterexample :
    handleMarathonRating { roundId := none, round_id := some 7 } = some 7 := by
  decide

/-- C10 (amended): the handler logs and returns without invoking any
rating calculation exactly when the resolved round id
`payload.roundId || payload.round_id` is untruthy — i.e. when both the
`roundId` field and the `round_id` fallback are absent or 0. -/
theorem C10_theorem (p : RatingPayload)
    (h1 : p.roundId = none ∨ p.roundId = some 0)
    (h2 : p.round_id = none ∨ p.round_id = some 0) :
    handleMarathonRating p = none := by
  unfold handleMarathonRating
  rcases h1 with h1 | h1 <;> rcases h2 with h2 | h2 <;> simp [h1, h2]

/-- C10 witness: the fully missing payload. -/
theorem C10_witness :
    (({ roundId := none, round_id := none } : RatingPayload).roundId = none ∨
      ({ roundId := none, round_id := none } : RatingPayload).roundId = some 0) ∧
    (({ roundId := none, round_id := none } : RatingPayload).round_id = none ∨
      ({ roundId := none, round_id := none } : RatingPayload).round_id = some 0) ∧
    handleMarathonRating { roundId := none, round_id := none } = none :=
  ⟨Or.inl rfl, Or.inl rfl, C10_theorem _ (Or.inl rfl) (Or.inl rfl)⟩

/-! ## Persistor lookups -/

/-- `updateMany` on the `(cid, 3)` key: the first matching row is found
mapped, provided the update function preserves the key predicate. -/
lemma find_map_upd (l : List AlgoRow) (cid : ℕ) (f : AlgoRow → AlgoRow)
    (hf : ∀ a, algoKey cid (f a) = algoKey cid a) :
    (l.map f).find? (algoKey cid) = (l.find? (algoKey cid)).map f := by
  rw [List.find?_map]
  have h : (algoKey cid ∘ f) = algoKey cid := funext hf
  rw [h]

/-- A row update that fixes rows outside a key and preserves key columns
does not disturb lookups on that key. -/
lemma find_map_frame (l : List AlgoRow) (cid : ℕ) (f : AlgoRow → AlgoRow)
    (hf1 : ∀ a, algoKey cid (f a) = algoKey cid a)
    (hf2 : ∀ a, algoKey cid a = true → f a = a) :
    (l.map f).find? (algoKey cid) = l.find? (algoKey cid) := by
  rw [find_map_upd l cid f hf1]
  cases hf : l.find? (algoKey cid) with
  | none => rfl
  | some a0 => simp [hf2 a0 (List.find?_some hf)]

lemma findAlgo_lcrs (db : DB) (l : List LcrRow) (cid : ℕ) :
    findAlgo { db with lcrs := l } cid = findAlgo db cid := rfl

/-- The alternate Persistor's upsert on an existing row: the stored
extrema afterwards follow the refresh rule of
MarathonRatingsService.ts lines 129-148. -/
lemma persistOneB_extrema (r : ℕ) (c : Coder) (db : DB) (ex : AlgoRow)
    (hex : findAlgo db c.coderId = some ex) :
    ∃ a, findAlgo (persistOneB r c db) c.coderId = some a ∧
      a.highest_rating =
        (if fgtB (c.newRating.getD c.rating) (ex.highest_rating.getD (some 0))
         then some (c.newRating.getD c.rating) else ex.highest_rating) ∧
      a.lowest_rating =
        (if fltB (c.newRating.getD c.rating) (ex.lowest_rating.getD (some 9999))
         then some (c.newRating.getD c.rating) else ex.lowest_rating) := by
  have hkey : algoKey c.coderId ex = true := List.find?_some hex
  unfold persistOneB
  simp only [findAlgo_lcrs, hex]
  set nr := c.newRating.getD c.rating with hnr
  set nv := c.newVolatility.getD c.volatility with hnv
  set hi := fgtB nr (ex.highest_rating.getD (some 0)) with hhi
  set lo := fltB nr (ex.lowest_rating.getD (some 9999)) with hlo
  set u1 : AlgoRow → AlgoRow := fun a =>
    if algoKey c.coderId a then
      { a with rating := some nr, vol := some nv,
               num_ratings := c.numRatings + 1,
               last_rated_round_id := some r }
    else a with hu1
  have hu1k : ∀ a, algoKey c.coderId (u1 a) = algoKey c.coderId a := by
    intro a
    rw [hu1]
    beta_reduce
    by_cases h : algoKey c.coderId a
    · rw [if_pos h]
      rfl
    · rw [if_neg h]
  have hex' : db.algoRatings.find? (algoKey c.coderId) = some ex := hex
  have hfind1 : (db.algoRatings.map u1).find? (algoKey c.coderId) = some (u1 ex) := by
    rw [find_map_upd _ _ u1 hu1k, hex', Option.map_some']
  by_cases hcase : (hi || lo : Bool)
  · simp only [hcase, if_true]
    set u2 : AlgoRow → AlgoRow := fun a =>
      if algoKey c.coderId a then
        { a with highest_rating := if hi then some nr else a.highest_rating,
                 lowest_rating := if lo then some nr else a.lowest_rating }
      else a with hu2
    have hu2k : ∀ a, algoKey c.coderId (u2 a) = algoKey c.coderId a := by
      intro a
      rw [hu2]
      beta_reduce
      by_cases h : algoKey c.coderId a
      · rw [if_pos h]
        rfl
      · rw [if_neg h]
    refine ⟨u2 (u1 ex), ?_, ?_, ?_⟩
    · show ((db.algoRatings.map u1).map u2).find? (algoKey c.coderId) = _
      rw [find_map_upd _ _ u2 hu2k, hfind1, Option.map_some']
    · rw [hu2]
      have hk1 : algoKey c.coderId (u1 ex) = true := by rw [hu1k]; exact hkey
      simp only [hk1, if_true]
      have : (u1 ex).highest_rating = ex.highest_rating := by
        rw [hu1]
        beta_reduce
        rw [if_pos hkey]
      rw [this]
    · rw [hu2]
      have hk1 : algoKey c.coderId (u1 ex) = true := by rw [hu1k]; exact hkey
      simp only [hk1, if_true]
      have : (u1 ex).lowest_rating = ex.lowest_rating := by
        rw [hu1]
        beta_reduce
        rw [if_pos hkey]
      rw [this]
  · simp only [hcase, if_false]
    have hor : (hi || lo) = false := by simpa using hcase
    obtain ⟨hhi', hlo'⟩ := Bool.or_eq_false_iff.mp hor
    refine ⟨u1 ex, hfind1, ?_, ?_⟩
    · rw [hhi', if_neg (by simp)]
      rw [hu1]
      beta_reduce
      rw [if_pos hkey]
    · rw [hlo', if_neg (by simp)]
      rw [hu1]
      beta_reduce
      rw [if_pos hkey]

lemma lcrWrite_algoRatings (roundId : ℕ) (c : Coder) (ea : Option AlgoRow)
    (nr nv : Flt) (db : DB) :
    (lcrWrite roundId c ea nr nv db).algoRatings = db.algoRatings := rfl

/-- The part_004 Persistor's update branch never touches
`highest_rating`/`lowest_rating`: the stored extrema survive unchanged. -/
lemma persistOne_extrema (r : ℕ) (c : Coder) (db : DB) (ex : AlgoRow)
    (hex : findAlgo db c.coderId = some ex) :
    ∃ a, findAlgo (persistOne r c db).1 c.coderId = some a ∧
      a.highest_rating = ex.highest_rating ∧ a.lowest_rating = ex.lowest_rating := by
  have hkey : algoKey c.coderId ex = true := List.find?_some hex
  have hex' : db.algoRatings.find? (algoKey c.coderId) = some ex := hex
  unfold persistOne
  simp only [findAlgo, lcrWrite_algoRatings, hex']
  rw [find_map_upd]
  · rw [hex', Option.map_some']
    refine ⟨_, rfl, ?_, ?_⟩
    · beta_reduce
      rw [if_pos hkey]
    · beta_reduce
      rw [if_pos hkey]
  · intro a
    beta_reduce
    by_cases h : algoKey c.coderId a
    · rw [if_pos h]
      rfl
    · rw [if_neg h]

/-! ## Claim C6 -/

/-- C6 counterexample: coder 9's engine result 1600 exceeds the stored
maximum 1550, yet after the part_004 Persistor runs, the AlgoRating row
still records `highest_rating = 1550` (and `lowest_rating = 1400`): the
spec's Persistor does not refresh the extrema on update. -/
theorem C6_counterexample :
    ((persistRatings 42 [cC6] dbC6).1.algoRatings.map
        (fun a => (a.highest_rating, a.lowest_rating)))
      = [(some (some 1550), some (some 1400))] ∧
    cC6.newRating = some (some 1600) ∧
    arC6.highest_rating = some (some 1550) ∧ (1550 : ℚ) < 1600 :=
  ⟨by decide, rfl, rfl, by decide⟩

/-- C6 (amended): only the alternate Persistor
(MarathonRatingsService.ts) refreshes the stored extrema — its update of
an existing row leaves `highest_rating` at `new_rating` exactly when
`new_rating` exceeds the stored maximum (with NULL read as 0) and
`lowest_rating` at `new_rating` exactly when it falls below the stored
minimum (NULL read as 9999); the part_004 Persistor's update branch leaves
both extrema unchanged. -/
theorem C6_theorem (r : ℕ) (c : Coder) (db : DB) (ex : AlgoRow)
    (hex : findAlgo db c.coderId = some ex) :
    (∃ a, findAlgo (persistRatingsB r [c] db) c.coderId = some a ∧
       a.highest_rating =
         (if fgtB (c.newRating.getD c.rating) (ex.highest_rating.getD (some 0))
          then some (c.newRating.getD c.rating) else ex.highest_rating) ∧
       a.lowest_rating =
         (if fltB (c.newRating.getD c.rating) (ex.lowest_rating.getD (some 9999))
          then some (c.newRating.getD c.rating) else ex.lowest_rating)) ∧
    (∃ a, findAlgo (persistRatings r [c] db).1 c.coderId = some a ∧
       a.highest_rating = ex.highest_rating ∧ a.lowest_rating = ex.lowest_rating) := by
  constructor
  · obtain ⟨a, ha, h1, h2⟩ := persistOneB_extrema r c db ex hex
    refine ⟨a, ?_, h1, h2⟩
    rw [show findAlgo (persistRatingsB r [c] db) c.coderId
        = findAlgo (persistOneB r c db) c.coderId from rfl]
    exact ha
  · obtain ⟨a, ha, h1, h2⟩ := persistOne_extrema r c db ex hex
    refine ⟨a, ?_, h1, h2⟩
    rw [show findAlgo (persistRatings r [c] db).1 c.coderId
        = findAlgo (persistOne r c db).1 c.coderId from rfl]
    exact ha

/-- C6 witness: the amended refresh rule applied to coder 9 with stored
row `arC6`. -/
theorem C6_witness :
    findAlgo dbC6 cC6.coderId = some arC6 ∧
    (∃ a, findAlgo (persistRatingsB 42 [cC6] dbC6) cC6.coderId = some a ∧
       a.highest_rating =
         (if fgtB (cC6.newRating.getD cC6.rating) (arC6.highest_rating.getD (some 0))
          then some (cC6.newRating.getD cC6.rating) else arC6.highest_rating) ∧
       a.lowest_rating =
         (if fltB (cC6.newRating.getD cC6.rating) (arC6.lowest_rating.getD (some 9999))
          then some (cC6.newRating.getD cC6.rating) else arC6.lowest_rating)) ∧
    (∃ a, findAlgo (persistRatings 42 [cC6] dbC6).1 cC6.coderId = some a ∧
       a.highest_rating = arC6.highest_rating ∧ a.lowest_rating = arC6.lowest_rating) :=
  ⟨by decide, (C6_theorem 42 cC6 dbC6 arC6 (by decide)).1, (C6_theorem 42 cC6 dbC6 arC6 (by decide)).2⟩

lemma algoKey_fields {cid : ℕ} {a : AlgoRow} (h : algoKey cid a = true) :
    a.coder_id = cid ∧ a.algo_rating_type_id = 3 := by
  unfold algoKey at h
  simp only [Bool.and_eq_true, decide_eq_true_eq] at h
  exact h

lemma persistOne_rounds (r : ℕ) (c : Coder) (db : DB) :
    (persistOne r c db).1.rounds = db.rounds := by
  unfold persistOne
  cases hf : findAlgo db c.coderId <;> rfl

lemma persistOne_events (r : ℕ) (c : Coder) (db : DB) :
    ∃ e2, (persistOne r c db).2 = [Ev.lcrUpd r c.coderId, e2] := by
  unfold persistOne
  cases hf : findAlgo db c.coderId
  · exact ⟨_, rfl⟩
  · exact ⟨_, rfl⟩

/-- After the Persistor handles coder `c`, the `(c, 3)` row exists with
`last_rated_round_id = r` and `num_ratings` bumped by exactly one. -/
lemma persistOne_findAlgo_self (r : ℕ) (c : Coder) (db : DB) :
    ∃ a, findAlgo (persistOne r c db).1 c.coderId = some a ∧
      a.coder_id = c.coderId ∧ a.algo_rating_type_id = 3 ∧
      a.last_rated_round_id = some r ∧
      a.num_ratings = algoNum db c.coderId + 1 := by
  unfold persistOne algoNum
  cases hf : findAlgo db c.coderId with
  | some ex =>
    have hkey : algoKey c.coderId ex = true := List.find?_some hf
    have hex' : db.algoRatings.find? (algoKey c.coderId) = some ex := hf
    simp only [hf, findAlgo, lcrWrite_algoRatings]
    rw [find_map_upd]
    · rw [hex', Option.map_some']
      refine ⟨_, rfl, ?_, ?_, ?_, ?_⟩
      · beta_reduce
        rw [if_pos hkey]
        exact (algoKey_fields hkey).1
      · beta_reduce
        rw [if_pos hkey]
        exact (algoKey_fields hkey).2
      · beta_reduce
        rw [if_pos hkey]
      · beta_reduce
        rw [if_pos hkey]
    · intro a
      beta_reduce
      by_cases h : algoKey c.coderId a
      · rw [if_pos h]
        rfl
      · rw [if_neg h]
  | none =>
    have hnone : db.algoRatings.find? (algoKey c.coderId) = none := hf
    simp only [hf, findAlgo, lcrWrite_algoRatings]
    rw [List.find?_append, hnone, Option.none_or, List.find?_cons_of_pos]
    · exact ⟨_, rfl, rfl, rfl, rfl, rfl⟩
    · unfold algoKey
      simp

/-- The Persistor's handling of coder `c` does not disturb the
`algo_rating` lookup of any other coder. -/
lemma persistOne_findAlgo_frame (r : ℕ) (c : Coder) (db : DB) (cid : ℕ)
    (hne : cid ≠ c.coderId) :
    findAlgo (persistOne r c db).1 cid = findAlgo db cid := by
  unfold persistOne
  cases hf : findAlgo db c.coderId with
  | some ex =>
    simp only [findAlgo, lcrWrite_algoRatings]
    rw [find_map_frame]
    · intro a
      beta_reduce
      by_cases h : algoKey c.coderId a
      · rw [if_pos h]
        rfl
      · rw [if_neg h]
    · intro a ha
      beta_reduce
      rw [if_neg]
      intro hk
      exact hne (((algoKey_fields ha).1).symm.trans (algoKey_fields hk).1)
  | none =>
    simp only [findAlgo, lcrWrite_algoRatings]
    rw [List.find?_append, List.find?_cons_of_neg, List.find?_nil]
    · exact Option.or_none
    · intro hk
      exact hne ((algoKey_fields hk).1).symm

lemma persistOne_lcrs_eq (r : ℕ) (c : Coder) (db : DB) :
    ∃ ea nr nv, (persistOne r c db).1.lcrs = (lcrWrite r c ea nr nv db).lcrs := by
  unfold persistOne
  cases hf : findAlgo db c.coderId
  · exact ⟨_, _, _, rfl⟩
  · exact ⟨_, _, _, rfl⟩

lemma lcrWrite_self (r : ℕ) (c : Coder) (ea : Option AlgoRow) (nr nv : Flt) (db : DB) :
    ∀ e ∈ (lcrWrite r c ea nr nv db).lcrs, ratedPred r c.coderId e := by
  intro e he
  unfold lcrWrite at he
  simp only [List.mem_map] at he
  obtain ⟨e0, he0, rfl⟩ := he
  by_cases h : (e0.round_id = r && e0.coder_id = c.coderId : Bool)
  · rw [if_pos h]
    intro _ _
    exact ⟨⟨nr, rfl⟩, ⟨nv, rfl⟩, rfl⟩
  · rw [if_neg h]
    intro hr hc
    exact absurd (by simp [hr, hc]) h

lemma lcrWrite_frame (r r' : ℕ) (c : Coder) (ea : Option AlgoRow) (nr nv : Flt)
    (db : DB) (cid : ℕ) (hne : cid ≠ c.coderId)
    (h : ∀ e ∈ db.lcrs, ratedPred r' cid e) :
    ∀ e ∈ (lcrWrite r c ea nr nv db).lcrs, ratedPred r' cid e := by
  intro e he
  unfold lcrWrite at he
  simp only [List.mem_map] at he
  obtain ⟨e0, he0, rfl⟩ := he
  by_cases hcond : (e0.round_id = r && e0.coder_id = c.coderId : Bool)
  · rw [if_pos hcond]
    intro _ hcid
    simp only [Bool.and_eq_true, decide_eq_true_eq] at hcond
    exact absurd (hcid.symm.trans hcond.2) hne
  · rw [if_neg hcond]
    exact h e0 he0

lemma persistOne_lcr_self (r : ℕ) (c : Coder) (db : DB) :
    ∀ e ∈ (persistOne r c db).1.lcrs, ratedPred r c.coderId e := by
  obtain ⟨ea, nr, nv, heq⟩ := persistOne_lcrs_eq r c db
  rw [heq]
  exact lcrWrite_self r c ea nr nv db

lemma persistOne_lcr_frame (r : ℕ) (c : Coder) (db : DB) (cid : ℕ)
    (hne : cid ≠ c.coderId) (h : ∀ e ∈ db.lcrs, ratedPred r cid e) :
    ∀ e ∈ (persistOne r c db).1.lcrs, ratedPred r cid e := by
  obtain ⟨ea, nr, nv, heq⟩ := persistOne_lcrs_eq r c db
  rw [heq]
  exact lcrWrite_frame r r c ea nr nv db cid hne h

lemma persistList_cons (r : ℕ) (c : Coder) (cs : List Coder) (db : DB) :
    persistList r (c :: cs) db =
      ((persistList r cs (persistOne r c db).1).1,
       (persistOne r c db).2 ++ (persistList r cs (persistOne r c db).1).2) := rfl

lemma persistList_rounds (r : ℕ) :
    ∀ (cs : List Coder) (db : DB), (persistList r cs db).1.rounds = db.rounds := by
  intro cs
  induction cs with
  | nil => intro db; rfl
  | cons c cs ih =>
    intro db
    rw [persistList_cons]
    show (persistList r cs (persistOne r c db).1).1.rounds = _
    rw [ih, persistOne_rounds]

lemma persistList_findAlgo_frame (r : ℕ) :
    ∀ (cs : List Coder) (db : DB) (cid : ℕ),
      cid ∉ cs.map (fun c => c.coderId) →
      findAlgo (persistList r cs db).1 cid = findAlgo db cid := by
  intro cs
  induction cs with
  | nil => intro db cid _; rfl
  | cons c cs ih =>
    intro db cid hnin
    simp only [List.map_cons, List.mem_cons, not_or] at hnin
    rw [persistList_cons]
    show findAlgo (persistList r cs (persistOne r c db).1).1 cid = _
    rw [ih _ cid hnin.2, persistOne_findAlgo_frame r c db cid hnin.1]

lemma persistList_lcr_frame (r : ℕ) :
    ∀ (cs : List Coder) (db : DB) (cid : ℕ),
      cid ∉ cs.map (fun c => c.coderId) →
      (∀ e ∈ db.lcrs, ratedPred r cid e) →
      ∀ e ∈ (persistList r cs db).1.lcrs, ratedPred r cid e := by
  intro cs
  induction cs with
  | nil => intro db cid _ h; exact h
  | cons c cs ih =>
    intro db cid hnin h
    simp only [List.map_cons, List.mem_cons, not_or] at hnin
    rw [persistList_cons]
    show ∀ e ∈ (persistList r cs (persistOne r c db).1).1.lcrs, ratedPred r cid e
    exact ih _ cid hnin.2 (persistOne_lcr_frame r c db cid hnin.1 h)

/-- Per-participant postcondition of the Persistor loop: for each coder of
a duplicate-free batch, the `(coder, 3)` row exists with
`last_rated_round_id = r` and `num_ratings` bumped by exactly one, and
every `long_comp_result` row of `(r, coder)` is rated with non-null
results. -/
lemma persistList_self (r : ℕ) :
    ∀ (cs : List Coder) (db : DB) (c : Coder),
      (cs.map (fun c => c.coderId)).Nodup → c ∈ cs →
      (∃ a, findAlgo (persistList r cs db).1 c.coderId = some a ∧
        a.coder_id = c.coderId ∧ a.algo_rating_type_id = 3 ∧
        a.last_rated_round_id = some r ∧
        a.num_ratings = algoNum db c.coderId + 1) ∧
      (∀ e ∈ (persistList r cs db).1.lcrs, ratedPred r c.coderId e) := by
  intro cs
  induction cs with
  | nil => intro db c _ hc; exact absurd hc (List.not_mem_nil c)
  | cons d cs ih =>
    intro db c hnd hc
    simp only [List.map_cons, List.nodup_cons] at hnd
    rw [persistList_cons]
    rcases List.mem_cons.mp hc with rfl | hmem
    · constructor
      · obtain ⟨a, ha, h1, h2, h3, h4⟩ := persistOne_findAlgo_self r c db
        refine ⟨a, ?_, h1, h2, h3, h4⟩
        show findAlgo (persistList r cs (persistOne r c db).1).1 c.coderId = some a
        rw [persistList_findAlgo_frame r cs _ c.coderId hnd.1]
        exact ha
      · show ∀ e ∈ (persistList r cs (persistOne r c db).1).1.lcrs, ratedPred r c.coderId e
        exact persistList_lcr_frame r cs _ c.coderId hnd.1
          (persistOne_lcr_self r c db)
    · have hne : c.coderId ≠ d.coderId := by
        intro hid
        exact hnd.1 (hid ▸ List.mem_map_of_mem (fun c => c.coderId) hmem)
      have hfr := persistOne_findAlgo_frame r d db c.coderId hne
      have hnum : algoNum (persistOne r d db).1 c.coderId = algoNum db c.coderId := by
        unfold algoNum
        rw [hfr]
      obtain ⟨hrow, hlcr⟩ := ih (persistOne r d db).1 c hnd.2 hmem
      refine ⟨?_, hlcr⟩
      obtain ⟨a, ha, h1, h2, h3, h4⟩ := hrow
      exact ⟨a, ha, h1, h2, h3, by rw [h4, hnum]⟩

lemma flipRound_lcrs (r : ℕ) (db : DB) : (flipRound r db).lcrs = db.lcrs := rfl

lemma findAlgo_flip (r : ℕ) (db : DB) (cid : ℕ) :
    findAlgo (flipRound r db) cid = findAlgo db cid := rfl

lemma flipRound_rated (r : ℕ) (db : DB) (h : ∃ rd ∈ db.rounds, rd.round_id = r) :
    ∃ rd ∈ (flipRound r db).rounds, rd.round_id = r ∧ rd.rated_ind = 1 := by
  obtain ⟨rd, hrd, hid⟩ := h
  unfold flipRound
  refine ⟨{ rd with rated_ind := 1 }, ?_, hid, rfl⟩
  have := List.mem_map_of_mem
    (fun x => if x.round_id = r then { x with rated_ind := 1 } else x) hrd
  simpa [hid] using this

lemma flipRound_keeps_rated (r' r : ℕ) (db : DB)
    (h : ∃ rd ∈ db.rounds, rd.round_id = r ∧ rd.rated_ind = 1) :
    ∃ rd ∈ (flipRound r' db).rounds, rd.round_id = r ∧ rd.rated_ind = 1 := by
  obtain ⟨rd, hrd, hid, hrated⟩ := h
  unfold flipRound
  by_cases hc : rd.round_id = r'
  · refine ⟨{ rd with rated_ind := 1 }, ?_, hid, rfl⟩
    have := List.mem_map_of_mem
      (fun x => if x.round_id = r' then { x with rated_ind := 1 } else x) hrd
    simpa [hc] using this
  · refine ⟨rd, ?_, hid, hrated⟩
    have := List.mem_map_of_mem
      (fun x => if x.round_id = r' then { x with rated_ind := 1 } else x) hrd
    simpa [hc] using this

lemma flipRound_exists (r' r : ℕ) (db : DB)
    (h : ∃ rd ∈ db.rounds, rd.round_id = r) :
    ∃ rd ∈ (flipRound r' db).rounds, rd.round_id = r := by
  obtain ⟨rd, hrd, hid⟩ := h
  unfold flipRound
  by_cases hc : rd.round_id = r'
  · refine ⟨{ rd with rated_ind := 1 }, ?_, hid⟩
    have := List.mem_map_of_mem
      (fun x => if x.round_id = r' then { x with rated_ind := 1 } else x) hrd
    simpa [hc] using this
  · refine ⟨rd, ?_, hid⟩
    have := List.mem_map_of_mem
      (fun x => if x.round_id = r' then { x with rated_ind := 1 } else x) hrd
    simpa [hc] using this

lemma persistRatings_self (r : ℕ) (cs : List Coder) (db : DB) (c : Coder)
    (hnd : (cs.map (fun c => c.coderId)).Nodup) (hc : c ∈ cs) :
    (∃ a, findAlgo (persistRatings r cs db).1 c.coderId = some a ∧
      a.coder_id = c.coderId ∧ a.algo_rating_type_id = 3 ∧
      a.last_rated_round_id = some r ∧
      a.num_ratings = algoNum db c.coderId + 1) ∧
    (∀ e ∈ (persistRatings r cs db).1.lcrs, ratedPred r c.coderId e) := by
  have h := persistList_self r cs db c hnd hc
  unfold persistRatings
  constructor
  · obtain ⟨a, ha, h1, h2, h3, h4⟩ := h.1
    exact ⟨a, by rw [findAlgo_flip]; exact ha, h1, h2, h3, h4⟩
  · rw [flipRound_lcrs]
    exact h.2

lemma persistRatings_findAlgo_frame (r : ℕ) (cs : List Coder) (db : DB) (cid : ℕ)
    (hnin : cid ∉ cs.map (fun c => c.coderId)) :
    findAlgo (persistRatings r cs db).1 cid = findAlgo db cid := by
  unfold persistRatings
  rw [findAlgo_flip]
  exact persistList_findAlgo_frame r cs db cid hnin

lemma persistRatings_lcr_frame (r : ℕ) (cs : List Coder) (db : DB) (cid : ℕ)
    (hnin : cid ∉ cs.map (fun c => c.coderId))
    (h : ∀ e ∈ db.lcrs, ratedPred r cid e) :
    ∀ e ∈ (persistRatings r cs db).1.lcrs, ratedPred r cid e := by
  unfold persistRatings
  rw [flipRound_lcrs]
  exact persistList_lcr_frame r cs db cid hnin h

lemma persistRatings_trace (r : ℕ) (cs : List Coder) (db : DB) :
    (persistRatings r cs db).2 = (persistList r cs db).2 ++ [Ev.roundFlip r] := rfl

lemma persistRatings_rounds_rated (r : ℕ) (cs : List Coder) (db : DB)
    (h : ∃ rd ∈ db.rounds, rd.round_id = r) :
    ∃ rd ∈ (persistRatings r cs db).1.rounds, rd.round_id = r ∧ rd.rated_ind = 1 := by
  unfold persistRatings
  exact flipRound_rated r _ (by rw [persistList_rounds]; exact h)

lemma persistRatings_rounds_exists (r' r : ℕ) (cs : List Coder) (db : DB)
    (h : ∃ rd ∈ db.rounds, rd.round_id = r) :
    ∃ rd ∈ (persistRatings r' cs db).1.rounds, rd.round_id = r := by
  unfold persistRatings
  exact flipRound_exists r' r _ (by rw [persistList_rounds]; exact h)

lemma persistRatings_keeps_rated (r' r : ℕ) (cs : List Coder) (db : DB)
    (h : ∃ rd ∈ db.rounds, rd.round_id = r ∧ rd.rated_ind = 1) :
    ∃ rd ∈ (persistRatings r' cs db).1.rounds, rd.round_id = r ∧ rd.rated_ind = 1 := by
  unfold persistRatings
  exact flipRound_keeps_rated r' r _ (by rw [persistList_rounds]; exact h)

lemma runRatingProcess_empty (P : NumPrims) (r : ℕ) (db : DB)
    (h : loadCoderData r db = []) :
    runRatingProcess P r db = (db, [], Status.alreadyCalculated) := by
  unfold runRatingProcess
  simp [h]

lemma runRatingProcess_eq (P : NumPrims) (r : ℕ) (db : DB)
    (h : ¬ (loadCoderData r db).length = 0) :
    runRatingProcess P r db =
      (let data := loadCoderData r db
       let ft := (processMarathonRatingsProvisional P data).filter
         (fun c => c.numRatings = 1)
       let step1 := if ft.length > 0 then persistRatings r ft db else (db, [])
       let np := data.filter (fun c => c.numRatings > 0)
       let step2 := if np.length > 0 then
           persistRatings r (processMarathonRatingsProvisional P np) step1.1
         else (step1.1, [])
       (step2.1, step1.2 ++ step2.2, Status.success)) := by
  unfold runRatingProcess
  simp only [h, if_false]

lemma insertScoreDesc_perm (x : LcrRow) (l : List LcrRow) :
    List.Perm (insertScoreDesc x l) (x :: l) := by
  induction l with
  | nil => exact List.Perm.refl _
  | cons y t ih =>
    unfold insertScoreDesc
    split
    · exact List.Perm.refl _
    · exact (ih.cons y).trans (List.Perm.swap x y t)

lemma orderByScoreDesc_perm (l : List LcrRow) : List.Perm (orderByScoreDesc l) l := by
  induction l with
  | nil => exact List.Perm.refl _
  | cons x t ih =>
    unfold orderByScoreDesc
    exact (insertScoreDesc_perm x (orderByScoreDesc t)).trans (ih.cons x)

/-- The slate ids are duplicate-free under the `(round_id, coder_id)`
uniqueness of `long_comp_result`. -/
lemma load_ids_nodup (r : ℕ) (db : DB) (h : db.lcrUnique) :
    ((loadCoderData r db).map (fun c => c.coderId)).Nodup := by
  unfold loadCoderData
  rw [List.map_map]
  have hids : ∀ (l : List LcrRow),
      l.map ((fun c => c.coderId) ∘ (fun r' =>
        ({ coderId := r'.coder_id,
           rating := ((findAlgo db r'.coder_id).map (fun a => a.rating.getD (some 0))).getD (some 0),
           volatility := ((findAlgo db r'.coder_id).map (fun a => a.vol.getD (some 0))).getD (some 0),
           numRatings := ((findAlgo db r'.coder_id).map (fun a => a.num_ratings)).getD 0,
           score := r'.system_point_total.getD 0 } : Coder)))
      = l.map (fun e => e.coder_id) := by
    intro l
    apply List.map_congr_left
    intro e _
    rfl
  rw [hids]
  have hperm := (orderByScoreDesc_perm (db.lcrs.filter (slateFilter r))).map
    (fun e => e.coder_id)
  rw [List.Perm.nodup_iff hperm]
  have hpw : (db.lcrs.filter (slateFilter r)).Pairwise
      (fun a b => a.coder_id ≠ b.coder_id) := by
    have hsub : (db.lcrs.filter (slateFilter r)).Sublist db.lcrs :=
      List.filter_sublist db.lcrs
    have hpw0 : (db.lcrs.filter (slateFilter r)).Pairwise
        (fun a b => a.round_id ≠ b.round_id ∨ a.coder_id ≠ b.coder_id) :=
      List.Pairwise.sublist hsub h
    have hall : ∀ e ∈ db.lcrs.filter (slateFilter r), e.round_id = r := by
      intro e he
      have := List.of_mem_filter he
      unfold slateFilter at this
      simp only [Bool.and_eq_true, decide_eq_true_eq] at this
      exact this.1.1.1
    apply List.Pairwise.imp_of_mem ?_ hpw0
    intro a b ha hb hab
    rcases hab with h1 | h2
    · exact absurd ((hall a ha).trans (hall b hb).symm) h1
    · exact h2
  exact List.Pairwise.map _ (fun a b hab => hab) hpw

lemma prov_eq (P : NumPrims) (data : List Coder) (h : data ≠ []) :
    processMarathonRatingsProvisional P data = runQubitsAlgorithm P data := by
  unfold processMarathonRatingsProvisional
  rw [if_neg (fun h0 => h (List.length_eq_zero.mp h0))]

lemma ft_ids (P : NumPrims) (data : List Coder) (h : data ≠ []) :
    ((processMarathonRatingsProvisional P data).filter (fun c => c.numRatings = 1)).map
        (fun c => c.coderId)
      = (data.filter (fun c => c.numRatings = 0)).map (fun c => c.coderId) := by
  rw [prov_eq P data h]
  exact engine_firstTimers_ids P data

lemma np_engine_ids (P : NumPrims) (np : List Coder) :
    (processMarathonRatingsProvisional P np).map (fun c => c.coderId) =
      np.map (fun c => c.coderId) := by
  by_cases h : np = []
  · subst h; rfl
  · rw [prov_eq P np h]
    exact engine_ids P np

lemma runRatingProcess_case_both (P : NumPrims) (r : ℕ) (db : DB)
    (hlen : ¬ (loadCoderData r db).length = 0)
    (hft : 0 < ((processMarathonRatingsProvisional P (loadCoderData r db)).filter
      (fun c => c.numRatings = 1)).length)
    (hnp : 0 < ((loadCoderData r db).filter (fun c => c.numRatings > 0)).length) :
    runRatingProcess P r db =
      (let ft := (processMarathonRatingsProvisional P (loadCoderData r db)).filter
         (fun c => c.numRatings = 1)
       let np := (loadCoderData r db).filter (fun c => c.numRatings > 0)
       let s1 := persistRatings r ft db
       let s2 := persistRatings r (processMarathonRatingsProvisional P np) s1.1
       (s2.1, s1.2 ++ s2.2, Status.success)) := by
  unfold runRatingProcess
  simp only [hlen, if_false, hft, if_true, hnp]

lemma runRatingProcess_case_ftonly (P : NumPrims) (r : ℕ) (db : DB)
    (hlen : ¬ (loadCoderData r db).length = 0)
    (hft : 0 < ((processMarathonRatingsProvisional P (loadCoderData r db)).filter
      (fun c => c.numRatings = 1)).length)
    (hnp : ¬ 0 < ((loadCoderData r db).filter (fun c => c.numRatings > 0)).length) :
    runRatingProcess P r db =
      (let ft := (processMarathonRatingsProvisional P (loadCoderData r db)).filter
         (fun c => c.numRatings = 1)
       let s1 := persistRatings r ft db
       (s1.1, s1.2 ++ [], Status.success)) := by
  unfold runRatingProcess
  simp only [hlen, if_false, hft, if_true, hnp]

lemma runRatingProcess_case_nponly (P : NumPrims) (r : ℕ) (db : DB)
    (hlen : ¬ (loadCoderData r db).length = 0)
    (hft : ¬ 0 < ((processMarathonRatingsProvisional P (loadCoderData r db)).filter
      (fun c => c.numRatings = 1)).length)
    (hnp : 0 < ((loadCoderData r db).filter (fun c => c.numRatings > 0)).length) :
    runRatingProcess P r db =
      (let np := (loadCoderData r db).filter (fun c => c.numRatings > 0)
       let s2 := persistRatings r (processMarathonRatingsProvisional P np) db
       (s2.1, [] ++ s2.2, Status.success)) := by
  unfold runRatingProcess
  simp only [hlen, if_false, hft, if_true, hnp]

lemma algoNum_of_find {db : DB} {cid : ℕ} {a : AlgoRow}
    (h : findAlgo db cid = some a) : algoNum db cid = a.num_ratings := by
  unfold algoNum
  rw [h]

lemma algoNum_congr {db db' : DB} {cid : ℕ}
    (h : findAlgo db cid = findAlgo db' cid) : algoNum db cid = algoNum db' cid := by
  unfold algoNum
  rw [h]

lemma data_mem_ft (P : NumPrims) (r : ℕ) (db : DB) (c : Coder)
    (hc : c ∈ loadCoderData r db) (h0 : c.numRatings = 0) :
    ∃ d ∈ (processMarathonRatingsProvisional P (loadCoderData r db)).filter
      (fun c => c.numRatings = 1), d.coderId = c.coderId := by
  have hne : loadCoderData r db ≠ [] := List.ne_nil_of_mem hc
  have hmem : c.coderId ∈ ((loadCoderData r db).filter (fun c => c.numRatings = 0)).map
      (fun c => c.coderId) :=
    List.mem_map_of_mem _ (List.mem_filter.mpr ⟨hc, by simp [h0]⟩)
  rw [← ft_ids P _ hne] at hmem
  obtain ⟨d, hd, hid⟩ := List.mem_map.mp hmem
  exact ⟨d, hd, hid⟩

lemma data_mem_np_engine (P : NumPrims) (r : ℕ) (db : DB) (c : Coder)
    (hc : c ∈ loadCoderData r db) (h0 : 0 < c.numRatings) :
    ∃ d ∈ processMarathonRatingsProvisional P
      ((loadCoderData r db).filter (fun c => c.numRatings > 0)), d.coderId = c.coderId := by
  have hmem : c.coderId ∈ ((loadCoderData r db).filter (fun c => c.numRatings > 0)).map
      (fun c => c.coderId) :=
    List.mem_map_of_mem _ (List.mem_filter.mpr ⟨hc, by simpa using h0⟩)
  rw [← np_engine_ids P _] at hmem
  obtain ⟨d, hd, hid⟩ := List.mem_map.mp hmem
  exact ⟨d, hd, hid⟩

lemma not_in_np_ids (P : NumPrims) (r : ℕ) (db : DB) (hlu : db.lcrUnique) (c : Coder)
    (hc : c ∈ loadCoderData r db) (h0 : c.numRatings = 0) :
    c.coderId ∉ (processMarathonRatingsProvisional P
      ((loadCoderData r db).filter (fun c => c.numRatings > 0))).map (fun c => c.coderId) := by
  rw [np_engine_ids]
  intro hmem
  obtain ⟨c', hc', hid⟩ := List.mem_map.mp hmem
  obtain ⟨hc'd, hc'p⟩ := List.mem_filter.mp hc'
  have := List.inj_on_of_nodup_map (load_ids_nodup r db hlu) hc'd hc hid
  subst this
  simp [h0] at hc'p

lemma not_in_ft_ids (P : NumPrims) (r : ℕ) (db : DB) (hlu : db.lcrUnique) (c : Coder)
    (hc : c ∈ loadCoderData r db) (h0 : c.numRatings ≠ 0) :
    c.coderId ∉ ((processMarathonRatingsProvisional P (loadCoderData r db)).filter
      (fun c => c.numRatings = 1)).map (fun c => c.coderId) := by
  rw [ft_ids P _ (List.ne_nil_of_mem hc)]
  intro hmem
  obtain ⟨c', hc', hid⟩ := List.mem_map.mp hmem
  obtain ⟨hc'd, hc'p⟩ := List.mem_filter.mp hc'
  have := List.inj_on_of_nodup_map (load_ids_nodup r db hlu) hc'd hc hid
  subst this
  simp [h0] at hc'p

lemma ft_ids_nodup (P : NumPrims) (r : ℕ) (db : DB) (hlu : db.lcrUnique)
    (hne : loadCoderData r db ≠ []) :
    (((processMarathonRatingsProvisional P (loadCoderData r db)).filter
      (fun c => c.numRatings = 1)).map (fun c => c.coderId)).Nodup := by
  rw [ft_ids P _ hne]
  exact List.Nodup.sublist ((List.filter_sublist _).map _) (load_ids_nodup r db hlu)

lemma np_engine_ids_nodup (P : NumPrims) (r : ℕ) (db : DB) (hlu : db.lcrUnique) :
    ((processMarathonRatingsProvisional P
      ((loadCoderData r db).filter (fun c => c.numRatings > 0))).map
        (fun c => c.coderId)).Nodup := by
  rw [np_engine_ids]
  exact List.Nodup.sublist ((List.filter_sublist _).map _) (load_ids_nodup r db hlu)

/-! ## Claim C4 -/

/-- C4: for every participant selected into the unrated slate of round
`r`, one successful run of the rating process increases the persisted
`AlgoRating.num_ratings` by exactly one (a missing row counting as 0, per
spec §3) — the Persistor is the sole incrementer and the engine's
in-memory `numRatings` increment is never written back. -/
theorem C4_theorem (P : NumPrims) (r : ℕ) (db : DB) (hlu : db.lcrUnique) :
    ∀ c ∈ loadCoderData r db,
      algoNum (runRatingProcess P r db).1 c.coderId = algoNum db c.coderId + 1 := by
  intro c hc
  have hne : loadCoderData r db ≠ [] := List.ne_nil_of_mem hc
  have hlen : ¬ (loadCoderData r db).length = 0 :=
    fun hz => hne (List.length_eq_zero.mp hz)
  by_cases h0 : c.numRatings = 0
  · obtain ⟨d, hd, hdid⟩ := data_mem_ft P r db c hc h0
    have hftpos : 0 < ((processMarathonRatingsProvisional P (loadCoderData r db)).filter
        (fun c => c.numRatings = 1)).length :=
      List.length_pos.mpr (List.ne_nil_of_mem hd)
    obtain ⟨a, ha, _, _, _, hnum⟩ :=
      (persistRatings_self r _ db d (ft_ids_nodup P r db hlu hne) hd).1
    have hval1 : algoNum (persistRatings r
        ((processMarathonRatingsProvisional P (loadCoderData r db)).filter
          (fun c => c.numRatings = 1)) db).1 d.coderId = algoNum db d.coderId + 1 :=
      (algoNum_of_find ha).trans hnum
    by_cases hnppos : 0 < ((loadCoderData r db).filter (fun c => c.numRatings > 0)).length
    · rw [runRatingProcess_case_both P r db hlen hftpos hnppos]
      show algoNum (persistRatings r (processMarathonRatingsProvisional P
        ((loadCoderData r db).filter (fun c => c.numRatings > 0)))
        (persistRatings r ((processMarathonRatingsProvisional P (loadCoderData r db)).filter
          (fun c => c.numRatings = 1)) db).1).1 c.coderId = algoNum db c.coderId + 1
      rw [algoNum_congr (persistRatings_findAlgo_frame r _ _ c.coderId
        (not_in_np_ids P r db hlu c hc h0)), ← hdid]
      exact hval1
    · rw [runRatingProcess_case_ftonly P r db hlen hftpos hnppos]
      show algoNum (persistRatings r ((processMarathonRatingsProvisional P
        (loadCoderData r db)).filter (fun c => c.numRatings = 1)) db).1 c.coderId
          = algoNum db c.coderId + 1
      rw [← hdid]
      exact hval1
  · have hpos : 0 < c.numRatings := Nat.pos_of_ne_zero h0
    obtain ⟨d, hd, hdid⟩ := data_mem_np_engine P r db c hc hpos
    have hnppos : 0 < ((loadCoderData r db).filter (fun c => c.numRatings > 0)).length :=
      List.length_pos.mpr (fun hz => by
        rw [hz] at hd
        have : (processMarathonRatingsProvisional P ([] : List Coder)) = [] := rfl
        rw [this] at hd
        exact List.not_mem_nil d hd)
    by_cases hftpos : 0 < ((processMarathonRatingsProvisional P (loadCoderData r db)).filter
        (fun c => c.numRatings = 1)).length
    · rw [runRatingProcess_case_both P r db hlen hftpos hnppos]
      show algoNum (persistRatings r (processMarathonRatingsProvisional P
        ((loadCoderData r db).filter (fun c => c.numRatings > 0)))
        (persistRatings r ((processMarathonRatingsProvisional P (loadCoderData r db)).filter
          (fun c => c.numRatings = 1)) db).1).1 c.coderId = algoNum db c.coderId + 1
      obtain ⟨a, ha, _, _, _, hnum⟩ := (persistRatings_self r _
        (persistRatings r ((processMarathonRatingsProvisional P (loadCoderData r db)).filter
          (fun c => c.numRatings = 1)) db).1 d (np_engine_ids_nodup P r db hlu) hd).1
      rw [← hdid, (algoNum_of_find ha).trans hnum]
      have hfr : algoNum (persistRatings r ((processMarathonRatingsProvisional P
          (loadCoderData r db)).filter (fun c => c.numRatings = 1)) db).1 d.coderId
          = algoNum db d.coderId := by
        apply algoNum_congr
        apply persistRatings_findAlgo_frame
        rw [hdid]
        exact not_in_ft_ids P r db hlu c hc h0
      rw [hfr]
    · rw [runRatingProcess_case_nponly P r db hlen hftpos hnppos]
      show algoNum (persistRatings r (processMarathonRatingsProvisional P
        ((loadCoderData r db).filter (fun c => c.numRatings > 0))) db).1 c.coderId
          = algoNum db c.coderId + 1
      obtain ⟨a, ha, _, _, _, hnum⟩ := (persistRatings_self r _ db d
        (np_engine_ids_nodup P r db hlu) hd).1
      rw [← hdid]
      exact (algoNum_of_find ha).trans hnum

/-- C4 witness: round 10001 of the seeded store (`num_ratings` 5, 3 and
absent-row 0 step to 6, 4 and 1). -/
theorem C4_witness :
    dbW.lcrUnique ∧
    ∀ c ∈ loadCoderData 10001 dbW,
      algoNum (runRatingProcess prims0 10001 dbW).1 c.coderId
        = algoNum dbW c.coderId + 1 :=
  ⟨by decide, C4_theorem prims0 10001 dbW (by decide)⟩

lemma runRatingProcess_status (P : NumPrims) (r : ℕ) (db : DB)
    (hlen : ¬ (loadCoderData r db).length = 0) :
    (runRatingProcess P r db).2.2 = Status.success := by
  unfold runRatingProcess
  simp only [hlen, if_false]

/-! ## Claim C1 -/

/-- C1: after a successful run of the rating process for round `r`, every
participant selected into the unrated slate has an AlgoRating row for
`(coder, 3)` with `last_rated_round_id = r`; every `long_comp_result` row
of `(r, coder)` carries non-null `new_rating`/`new_vol` and
`rated_ind = 1`; and the Round row of `r` has `rated_ind = 1`. -/
theorem C1_theorem (P : NumPrims) (r : ℕ) (db : DB)
    (hlu : db.lcrUnique)
    (hround : ∃ rd ∈ db.rounds, rd.round_id = r)
    (hne : loadCoderData r db ≠ []) :
    (runRatingProcess P r db).2.2 = Status.success ∧
    (∀ c ∈ loadCoderData r db,
      (∃ a ∈ (runRatingProcess P r db).1.algoRatings,
        a.coder_id = c.coderId ∧ a.algo_rating_type_id = 3 ∧
        a.last_rated_round_id = some r) ∧
      (∀ e ∈ (runRatingProcess P r db).1.lcrs, ratedPred r c.coderId e)) ∧
    (∃ rd ∈ (runRatingProcess P r db).1.rounds, rd.round_id = r ∧ rd.rated_ind = 1) := by
  have hlen : ¬ (loadCoderData r db).length = 0 :=
    fun hz => hne (List.length_eq_zero.mp hz)
  refine ⟨runRatingProcess_status P r db hlen, ?_⟩
  have hcases : (0 < ((processMarathonRatingsProvisional P (loadCoderData r db)).filter
      (fun c => c.numRatings = 1)).length) ∨
      (0 < ((loadCoderData r db).filter (fun c => c.numRatings > 0)).length) := by
    obtain ⟨c0, hc0⟩ := List.exists_mem_of_ne_nil _ hne
    by_cases h0 : c0.numRatings = 0
    · obtain ⟨d, hd, -⟩ := data_mem_ft P r db c0 hc0 h0
      exact Or.inl (List.length_pos.mpr (List.ne_nil_of_mem hd))
    · exact Or.inr (List.length_pos.mpr (List.ne_nil_of_mem
        (List.mem_filter.mpr ⟨hc0, by simpa using Nat.pos_of_ne_zero h0⟩)))
  by_cases hftpos : 0 < ((processMarathonRatingsProvisional P (loadCoderData r db)).filter
      (fun c => c.numRatings = 1)).length
  · by_cases hnppos : 0 < ((loadCoderData r db).filter (fun c => c.numRatings > 0)).length
    · -- both passes run
      rw [runRatingProcess_case_both P r db hlen hftpos hnppos]
      refine ⟨?_, ?_⟩
      · intro c hc
        by_cases h0 : c.numRatings = 0
        · obtain ⟨d, hd, hdid⟩ := data_mem_ft P r db c hc h0
          obtain ⟨⟨a, ha, ha1, ha2, ha3, -⟩, hlcr⟩ :=
            persistRatings_self r _ db d (ft_ids_nodup P r db hlu hne) hd
          have hnin : d.coderId ∉ (processMarathonRatingsProvisional P
              ((loadCoderData r db).filter (fun c => c.numRatings > 0))).map
                (fun c => c.coderId) := by
            rw [hdid]
            exact not_in_np_ids P r db hlu c hc h0
          constructor
          · show ∃ a ∈ (persistRatings r (processMarathonRatingsProvisional P
              ((loadCoderData r db).filter (fun c => c.numRatings > 0)))
              (persistRatings r ((processMarathonRatingsProvisional P
                (loadCoderData r db)).filter (fun c => c.numRatings = 1)) db).1).1.algoRatings,
                a.coder_id = c.coderId ∧ a.algo_rating_type_id = 3 ∧
                a.last_rated_round_id = some r
            have hfr := persistRatings_findAlgo_frame r _ (persistRatings r
              ((processMarathonRatingsProvisional P (loadCoderData r db)).filter
                (fun c => c.numRatings = 1)) db).1 d.coderId hnin
            rw [ha] at hfr
            exact ⟨a, List.mem_of_find?_eq_some hfr, hdid ▸ ha1, ha2, ha3⟩
          · show ∀ e ∈ (persistRatings r (processMarathonRatingsProvisional P
              ((loadCoderData r db).filter (fun c => c.numRatings > 0)))
              (persistRatings r ((processMarathonRatingsProvisional P
                (loadCoderData r db)).filter (fun c => c.numRatings = 1)) db).1).1.lcrs,
                ratedPred r c.coderId e
            rw [← hdid]
            exact persistRatings_lcr_frame r _ _ d.coderId hnin hlcr
        · obtain ⟨d, hd, hdid⟩ := data_mem_np_engine P r db c hc (Nat.pos_of_ne_zero h0)
          obtain ⟨⟨a, ha, ha1, ha2, ha3, -⟩, hlcr⟩ :=
            persistRatings_self r _ (persistRatings r ((processMarathonRatingsProvisional P
              (loadCoderData r db)).filter (fun c => c.numRatings = 1)) db).1 d
              (np_engine_ids_nodup P r db hlu) hd
          constructor
          · exact ⟨a, List.mem_of_find?_eq_some ha, hdid ▸ ha1, ha2, ha3⟩
          · show ∀ e ∈ (persistRatings r (processMarathonRatingsProvisional P
              ((loadCoderData r db).filter (fun c => c.numRatings > 0)))
              (persistRatings r ((processMarathonRatingsProvisional P
                (loadCoderData r db)).filter (fun c => c.numRatings = 1)) db).1).1.lcrs,
                ratedPred r c.coderId e
            rw [← hdid]
            exact hlcr
      · show ∃ rd ∈ (persistRatings r (processMarathonRatingsProvisional P
          ((loadCoderData r db).filter (fun c => c.numRatings > 0)))
          (persistRatings r ((processMarathonRatingsProvisional P
            (loadCoderData r db)).filter (fun c => c.numRatings = 1)) db).1).1.rounds,
            rd.round_id = r ∧ rd.rated_ind = 1
        exact persistRatings_rounds_rated r _ _
          (persistRatings_rounds_exists r r _ db hround)
    · -- only the provisional pass runs
      rw [runRatingProcess_case_ftonly P r db hlen hftpos hnppos]
      refine ⟨?_, ?_⟩
      · intro c hc
        have h0 : c.numRatings = 0 := by
          by_contra h0
          exact hnppos (List.length_pos.mpr (List.ne_nil_of_mem
            (List.mem_filter.mpr ⟨hc, by simpa using Nat.pos_of_ne_zero h0⟩)))
        obtain ⟨d, hd, hdid⟩ := data_mem_ft P r db c hc h0
        obtain ⟨⟨a, ha, ha1, ha2, ha3, -⟩, hlcr⟩ :=
          persistRatings_self r _ db d (ft_ids_nodup P r db hlu hne) hd
        exact ⟨⟨a, List.mem_of_find?_eq_some ha, hdid ▸ ha1, ha2, ha3⟩, hdid ▸ hlcr⟩
      · exact persistRatings_rounds_rated r _ db hround
  · have hnppos : 0 < ((loadCoderData r db).filter (fun c => c.numRatings > 0)).length := by
      rcases hcases with h | h
      · exact absurd h hftpos
      · exact h
    rw [runRatingProcess_case_nponly P r db hlen hftpos hnppos]
    refine ⟨?_, ?_⟩
    · intro c hc
      have h0 : 0 < c.numRatings := by
        rcases Nat.eq_zero_or_pos c.numRatings with h0 | h0
        · obtain ⟨d, hd, -⟩ := data_mem_ft P r db c hc h0
          exact absurd (List.length_pos.mpr (List.ne_nil_of_mem hd)) hftpos
        · exact h0
      obtain ⟨d, hd, hdid⟩ := data_mem_np_engine P r db c hc h0
      obtain ⟨⟨a, ha, ha1, ha2, ha3, -⟩, hlcr⟩ :=
        persistRatings_self r _ db d (np_engine_ids_nodup P r db hlu) hd
      exact ⟨⟨a, List.mem_of_find?_eq_some ha, hdid ▸ ha1, ha2, ha3⟩, hdid ▸ hlcr⟩
    · exact persistRatings_rounds_rated r _ db hround

theorem C1_witness :
    (dbW.lcrUnique ∧ (∃ rd ∈ dbW.rounds, rd.round_id = 10001) ∧
      loadCoderData 10001 dbW ≠ []) ∧
    (runRatingProcess prims0 10001 dbW).2.2 = Status.success ∧
    (∀ c ∈ loadCoderData 10001 dbW,
      (∃ a ∈ (runRatingProcess prims0 10001 dbW).1.algoRatings,
        a.coder_id = c.coderId ∧ a.algo_rating_type_id = 3 ∧
        a.last_rated_round_id = some 10001) ∧
      (∀ e ∈ (runRatingProcess prims0 10001 dbW).1.lcrs,
        ratedPred 10001 c.coderId e)) ∧
    (∃ rd ∈ (runRatingProcess prims0 10001 dbW).1.rounds,
      rd.round_id = 10001 ∧ rd.rated_ind = 1) :=
  ⟨⟨by decide, by decide, by decide⟩,
    C1_theorem prims0 10001 dbW (by decide) (by decide) (by decide)⟩

/-! ## Claim C3 -/

lemma reconcile_foldl_id (r : ℕ) (entr : List LcrRow) (subs : List Submission)
    (acc : DB × List Ev)
    (h : ∀ s ∈ subs, ∀ m, entr.find? (fun e => e.coder_id = s.memberId) = some m →
      m.attended ≠ some 'N') :
    subs.foldl (reconcileStep r entr) acc = acc := by
  induction subs generalizing acc with
  | nil => rfl
  | cons s ss ih =>
    have hstep : reconcileStep r entr acc s = acc := by
      unfold reconcileStep
      cases hf : entr.find? (fun e => e.coder_id = s.memberId) with
      | none => rfl
      | some m =>
        have hne := h s (List.mem_cons_self s ss) m hf
        dsimp only
        rw [if_neg hne]
    rw [List.foldl_cons, hstep]
    exact ih acc (fun s hs m hf => h s (List.mem_cons_of_mem _ hs) m hf)

lemma reconcileAttendance_id (r : ℕ) (subs : List Submission) (db : DB)
    (h : ∀ s ∈ subs, ∀ m,
      (db.lcrs.filter (fun e => e.round_id = r)).find?
        (fun e => e.coder_id = s.memberId) = some m → m.attended ≠ some 'N') :
    reconcileAttendance r subs db = (db, []) := by
  unfold reconcileAttendance
  exact reconcile_foldl_id r _ subs (db, []) h

/-- C3: re-running `calculate` for an already-processed round — every
submission's snapshot entry, if any, no longer reads `attended = 'N'`, and
the unrated slate is empty — performs no writes (the event trace is empty,
the store is returned unchanged) and reports `ALREADY_CALCULATED`. -/
theorem C3_theorem (P : NumPrims) (legacyId : ℕ) (finalSubs : Option (List Submission))
    (db : DB)
    (hrec : ∀ subs, finalSubs = some subs → ∀ s ∈ subs, ∀ m,
      (db.lcrs.filter (fun e => e.round_id = resolveRoundId legacyId db)).find?
        (fun e => e.coder_id = s.memberId) = some m → m.attended ≠ some 'N')
    (hslate : loadCoderData (resolveRoundId legacyId db) db = []) :
    calculate P legacyId finalSubs db = (db, [], Status.alreadyCalculated) := by
  cases finalSubs with
  | none =>
    unfold calculate
    simp only [runRatingProcess_empty P _ db hslate, List.nil_append]
  | some subs =>
    unfold calculate
    simp only [reconcileAttendance_id _ subs db (hrec subs rfl)]
    simp only [runRatingProcess_empty P _ db hslate, List.nil_append]

theorem C3_counterexample :
    (∃ rd ∈ dbC3.rounds, rd.round_id = resolveRoundId 77 dbC3 ∧ rd.rated_ind = 1) ∧
    (calculate prims0 77 (some [⟨5⟩]) dbC3).2.1 ≠ [] ∧
    (calculate prims0 77 (some [⟨5⟩]) dbC3).2.2 = Status.success := by
  refine ⟨by decide, by decide, by decide⟩

theorem C3_witness :
    (∀ subs, (some [⟨6⟩] : Option (List Submission)) = some subs →
      ∀ s ∈ subs, ∀ m,
        (dbC3R.lcrs.filter (fun e => e.round_id = resolveRoundId 88 dbC3R)).find?
          (fun e => e.coder_id = s.memberId) = some m → m.attended ≠ some 'N') ∧
    loadCoderData (resolveRoundId 88 dbC3R) dbC3R = [] ∧
    calculate prims0 88 (some [⟨6⟩]) dbC3R = (dbC3R, [], Status.alreadyCalculated) :=
  ⟨by decide, by decide,
    C3_theorem prims0 88 (some [⟨6⟩]) dbC3R (by decide) (by decide)⟩

/-! ## Claim C5 -/

/-- C5 (amended): with both passes non-empty, the round's event trace is
the provisional persist body, then a `rated_ind` flip, then the
non-provisional persist body, then a second flip: provisional persistence
does precede the non-provisional pass, but `persistRatings` flips
`Round(r).rated_ind` at the end of EACH call, so the flag is already set
to 1 before the non-provisional writes. -/
theorem C5_theorem (P : NumPrims) (r : ℕ) (db : DB)
    (hlen : ¬ (loadCoderData r db).length = 0)
    (hft : 0 < ((processMarathonRatingsProvisional P (loadCoderData r db)).filter
      (fun c => c.numRatings = 1)).length)
    (hnp : 0 < ((loadCoderData r db).filter (fun c => c.numRatings > 0)).length) :
    (runRatingProcess P r db).2.1 =
      ((persistList r ((processMarathonRatingsProvisional P (loadCoderData r db)).filter
          (fun c => c.numRatings = 1)) db).2 ++ [Ev.roundFlip r]) ++
      ((persistList r (processMarathonRatingsProvisional P
            ((loadCoderData r db).filter (fun c => c.numRatings > 0)))
          (persistRatings r ((processMarathonRatingsProvisional P (loadCoderData r db)).filter
            (fun c => c.numRatings = 1)) db).1).2 ++ [Ev.roundFlip r]) := by
  rw [runRatingProcess_case_both P r db hlen hft hnp]
  show (persistRatings r ((processMarathonRatingsProvisional P (loadCoderData r db)).filter
      (fun c => c.numRatings = 1)) db).2 ++
    (persistRatings r (processMarathonRatingsProvisional P
        ((loadCoderData r db).filter (fun c => c.numRatings > 0)))
      (persistRatings r ((processMarathonRatingsProvisional P (loadCoderData r db)).filter
        (fun c => c.numRatings = 1)) db).1).2 = _
  rw [persistRatings_trace, persistRatings_trace]

theorem C5_counterexample :
    ∃ t1 t2, (runRatingProcess prims0 10001 dbW).2.1 =
      t1 ++ Ev.roundFlip 10001 :: Ev.lcrUpd 10001 1001 :: t2 := by
  have hne : loadCoderData 10001 dbW ≠ [] := by decide
  have hftm := ft_ids prims0 (loadCoderData 10001 dbW) hne
  have hlen1 : (((processMarathonRatingsProvisional prims0 (loadCoderData 10001 dbW)).filter
      (fun c => c.numRatings = 1)).map (fun c => c.coderId)).length
      = (((loadCoderData 10001 dbW).filter (fun c => c.numRatings = 0)).map
          (fun c => c.coderId)).length := by rw [hftm]
  rw [List.length_map, List.length_map] at hlen1
  have hft : 0 < ((processMarathonRatingsProvisional prims0 (loadCoderData 10001 dbW)).filter
      (fun c => c.numRatings = 1)).length := by rw [hlen1]; decide
  have hnp : 0 < ((loadCoderData 10001 dbW).filter (fun c => c.numRatings > 0)).length := by
    decide
  have hlen : ¬ (loadCoderData 10001 dbW).length = 0 := by decide
  rw [runRatingProcess_case_both prims0 10001 dbW hlen hft hnp]
  show ∃ t1 t2,
    (persistRatings 10001 ((processMarathonRatingsProvisional prims0
        (loadCoderData 10001 dbW)).filter (fun c => c.numRatings = 1)) dbW).2 ++
      (persistRatings 10001 (processMarathonRatingsProvisional prims0
          ((loadCoderData 10001 dbW).filter (fun c => c.numRatings > 0)))
        (persistRatings 10001 ((processMarathonRatingsProvisional prims0
            (loadCoderData 10001 dbW)).filter (fun c => c.numRatings = 1)) dbW).1).2
      = t1 ++ Ev.roundFlip 10001 :: Ev.lcrUpd 10001 1001 :: t2
  have hmap := np_engine_ids prims0
    ((loadCoderData 10001 dbW).filter (fun c => c.numRatings > 0))
  have hnpm : ((loadCoderData 10001 dbW).filter (fun c => c.numRatings > 0)).map
      (fun c => c.coderId) = [1001, 1002] := by decide
  rw [hnpm] at hmap
  cases hnp' : processMarathonRatingsProvisional prims0
      ((loadCoderData 10001 dbW).filter (fun c => c.numRatings > 0)) with
  | nil => rw [hnp'] at hmap; simp at hmap
  | cons d1 rest =>
    rw [hnp'] at hmap
    simp only [List.map_cons, List.cons.injEq] at hmap
    obtain ⟨hd1, -⟩ := hmap
    rw [persistRatings_trace, persistRatings_trace, persistList_cons]
    obtain ⟨e2, he2⟩ := persistOne_events 10001 d1
      (persistRatings 10001 ((processMarathonRatingsProvisional prims0
        (loadCoderData 10001 dbW)).filter (fun c => c.numRatings = 1)) dbW).1
    rw [he2, hd1]
    refine ⟨(persistList 10001 ((processMarathonRatingsProvisional prims0
        (loadCoderData 10001 dbW)).filter (fun c => c.numRatings = 1)) dbW).2,
      e2 :: ((persistList 10001 rest (persistOne 10001 d1
        (persistRatings 10001 ((processMarathonRatingsProvisional prims0
          (loadCoderData 10001 dbW)).filter (fun c => c.numRatings = 1)) dbW).1).1).2
        ++ [Ev.roundFlip 10001]), ?_⟩
    simp

theorem C5_witness :
    (¬ (loadCoderData 10001 dbW).length = 0) ∧
    0 < ((processMarathonRatingsProvisional prims0 (loadCoderData 10001 dbW)).filter
      (fun c => c.numRatings = 1)).length ∧
    0 < ((loadCoderData 10001 dbW).filter (fun c => c.numRatings > 0)).length ∧
    (runRatingProcess prims0 10001 dbW).2.1 =
      ((persistList 10001 ((processMarathonRatingsProvisional prims0
          (loadCoderData 10001 dbW)).filter (fun c => c.numRatings = 1)) dbW).2
        ++ [Ev.roundFlip 10001]) ++
      ((persistList 10001 (processMarathonRatingsProvisional prims0
            ((loadCoderData 10001 dbW).filter (fun c => c.numRatings > 0)))
          (persistRatings 10001 ((processMarathonRatingsProvisional prims0
            (loadCoderData 10001 dbW)).filter (fun c => c.numRatings = 1)) dbW).1).2
        ++ [Ev.roundFlip 10001]) := by
  have hne : loadCoderData 10001 dbW ≠ [] := by decide
  have hftm := ft_ids prims0 (loadCoderData 10001 dbW) hne
  have hlen1 : (((processMarathonRatingsProvisional prims0 (loadCoderData 10001 dbW)).filter
      (fun c => c.numRatings = 1)).map (fun c => c.coderId)).length
      = (((loadCoderData 10001 dbW).filter (fun c => c.numRatings = 0)).map
          (fun c => c.coderId)).length := by rw [hftm]
  rw [List.length_map, List.length_map] at hlen1
  have hft : 0 < ((processMarathonRatingsProvisional prims0 (loadCoderData 10001 dbW)).filter
      (fun c => c.numRatings = 1)).length := by rw [hlen1]; decide
  exact ⟨by decide, hft, by decide,
    C5_theorem prims0 10001 dbW (by decide) hft (by decide)⟩

/-! ## Claim C8 -/

lemma le_foldl_max (l : List ℚ) : ∀ m : ℚ, m ≤ l.foldl max m := by
  induction l with
  | nil => intro m; exact le_refl m
  | cons s t ih =>
    intro m
    rw [List.foldl_cons]
    exact le_trans (le_max_left m s) (ih (max m s))

lemma mem_le_foldl_max (l : List ℚ) : ∀ (m s : ℚ), s ∈ l → s ≤ l.foldl max m := by
  induction l with
  | nil => intro m s hs; exact absurd hs (List.not_mem_nil s)
  | cons a t ih =>
    intro m s hs
    rw [List.foldl_cons]
    rcases List.mem_cons.mp hs with h | h
    · subst h
      exact le_trans (le_max_right m s) (le_foldl_max t (max m s))
    · exact ih (max m a) s h

lemma foldl_max_mem (l : List ℚ) : ∀ m : ℚ, l.foldl max m = m ∨ l.foldl max m ∈ l := by
  induction l with
  | nil => intro m; exact Or.inl rfl
  | cons s t ih =>
    intro m
    rw [List.foldl_cons]
    rcases ih (max m s) with h | h
    · rcases max_choice m s with hm | hm
      · exact Or.inl (h.trans hm)
      · exact Or.inr (by rw [h.trans hm]; exact List.mem_cons_self s t)
    · exact Or.inr (List.mem_cons_of_mem s h)

lemma unrankedScores_cons_pos (c : Coder) (t : List Coder) (h : c.actualRank = 0) :
    unrankedScores (c :: t) = c.score :: unrankedScores t := by
  simp [unrankedScores, List.filter_cons, h]

lemma unrankedScores_cons_neg (c : Coder) (t : List Coder) (h : ¬ c.actualRank = 0) :
    unrankedScores (c :: t) = unrankedScores t := by
  simp [unrankedScores, List.filter_cons, h]

lemma scanStep_skip (acc : Option ℚ × ℕ) (c : Coder) (h : ¬ c.actualRank = 0) :
    scanStep acc c = acc := by
  unfold scanStep
  simp [h]

lemma scanStep_none (k0 : ℕ) (c : Coder) (h : c.actualRank = 0) :
    scanStep (none, k0) c = (some c.score, 1) := by
  unfold scanStep
  simp [h]

lemma scanStep_tie (m : ℚ) (k : ℕ) (c : Coder) (h : c.actualRank = 0)
    (hle : m ≤ c.score) (heq : c.score = m) :
    scanStep (some m, k) c = (some m, k + 1) := by
  unfold scanStep
  simp [h, hle, heq]

lemma scanStep_new (m : ℚ) (k : ℕ) (c : Coder) (h : c.actualRank = 0)
    (hle : m ≤ c.score) (heq : ¬ c.score = m) :
    scanStep (some m, k) c = (some c.score, 1) := by
  unfold scanStep
  simp [h, hle, heq]

lemma scanStep_low (m : ℚ) (k : ℕ) (c : Coder) (h : c.actualRank = 0)
    (hle : ¬ m ≤ c.score) :
    scanStep (some m, k) c = (some m, k) := by
  unfold scanStep
  simp [h, hle]

lemma scan_go (cs : List Coder) : ∀ (m : ℚ) (k : ℕ),
    cs.foldl scanStep (some m, k) =
      (some ((unrankedScores cs).foldl max m),
       (unrankedScores cs).count ((unrankedScores cs).foldl max m)
         + if (unrankedScores cs).foldl max m = m then k else 0) := by
  induction cs with
  | nil =>
    intro m k
    simp [unrankedScores]
  | cons c t ih =>
    intro m k
    rw [List.foldl_cons]
    by_cases hr : c.actualRank = 0
    · rw [unrankedScores_cons_pos c t hr, List.foldl_cons]
      by_cases hle : m ≤ c.score
      · by_cases heq : c.score = m
        · rw [scanStep_tie m k c hr hle heq, ih m (k + 1), heq, max_self,
            List.count_cons]
          by_cases hMm : (unrankedScores t).foldl max m = m
          · simp [hMm]
            omega
          · have hmM : ¬ m = (unrankedScores t).foldl max m := fun h => hMm h.symm
            simp [hMm, hmM]
        · rw [scanStep_new m k c hr hle heq, ih c.score 1,
            max_eq_right hle, List.count_cons]
          have hlt : m < c.score := lt_of_le_of_ne hle (fun h => heq h.symm)
          have hMge : c.score ≤ (unrankedScores t).foldl max c.score :=
            le_foldl_max (unrankedScores t) c.score
          have hMm : ¬ (unrankedScores t).foldl max c.score = m := by
            intro h
            have hx := lt_of_lt_of_le hlt hMge
            rw [h] at hx
            exact lt_irrefl m hx
          rw [if_neg hMm, Nat.add_zero]
          by_cases hMs : (unrankedScores t).foldl max c.score = c.score
          · simp [hMs]
          · have hsM : ¬ c.score = (unrankedScores t).foldl max c.score :=
              fun h => hMs h.symm
            simp [hMs, hsM]
      · rw [scanStep_low m k c hr hle, ih m k, List.count_cons]
        have hlt : c.score < m := lt_of_not_le hle
        rw [max_eq_left (le_of_lt hlt)]
        have hMge : m ≤ (unrankedScores t).foldl max m := le_foldl_max (unrankedScores t) m
        have hsM : ¬ c.score = (unrankedScores t).foldl max m := by
          intro h
          have hx := lt_of_lt_of_le hlt hMge
          rw [← h] at hx
          exact lt_irrefl c.score hx
        have hMs : ¬ (unrankedScores t).foldl max m = c.score := fun h => hsM h.symm
        simp [hMs, hsM]
    · rw [scanStep_skip _ c hr, unrankedScores_cons_neg c t hr]
      exact ih m k

lemma scanMax_spec (cs : List Coder) (hne : unrankedScores cs ≠ []) :
    ∃ m, scanMax cs = (some m, (unrankedScores cs).count m) ∧
      m ∈ unrankedScores cs ∧ ∀ s ∈ unrankedScores cs, s ≤ m := by
  induction cs with
  | nil => exact absurd rfl hne
  | cons c t ih =>
    by_cases hr : c.actualRank = 0
    · have hU := unrankedScores_cons_pos c t hr
      refine ⟨(unrankedScores t).foldl max c.score, ?_, ?_, ?_⟩
      · show (c :: t).foldl scanStep (none, 0) = _
        rw [List.foldl_cons, scanStep_none 0 c hr, scan_go t c.score 1, hU,
          List.count_cons]
        by_cases hMs : (unrankedScores t).foldl max c.score = c.score
        · simp [hMs]
        · have hsM : ¬ c.score = (unrankedScores t).foldl max c.score :=
            fun h => hMs h.symm
          simp [hMs, hsM]
      · rw [hU]
        rcases foldl_max_mem (unrankedScores t) c.score with h | h
        · rw [h]; exact List.mem_cons_self _ _
        · exact List.mem_cons_of_mem _ h
      · rw [hU]
        intro s hs
        rcases List.mem_cons.mp hs with h | h
        · rw [h]; exact le_foldl_max (unrankedScores t) c.score
        · exact mem_le_foldl_max (unrankedScores t) c.score s h
    · have hU := unrankedScores_cons_neg c t hr
      rw [hU] at hne ⊢
      obtain ⟨m, hsm, hmem, hmax⟩ := ih hne
      refine ⟨m, ?_, hmem, hmax⟩
      show (c :: t).foldl scanStep (none, 0) = _
      rw [List.foldl_cons, scanStep_skip _ c hr]
      exact hsm

lemma rank_val_pos (i k : ℕ) : (0 : ℚ) < (i : ℚ) + 0.5 + (k : ℚ) / 2 := by
  have hi : (0 : ℚ) ≤ (i : ℚ) := Nat.cast_nonneg i
  have hk : (0 : ℚ) ≤ (k : ℚ) / 2 := by positivity
  have : (0 : ℚ) < (i : ℚ) + 0.5 := by linarith [show (0:ℚ) < 0.5 by norm_num]
  linarith

lemma sumRank_cons (c : Coder) (l : List Coder) :
    sumRank (c :: l) = c.actualRank + sumRank l := by
  simp [sumRank]

lemma assignRanks_cons (P : NumPrims) (m : ℚ) (i k n : ℕ) (c : Coder) (t : List Coder) :
    assignRanks P m i k n (c :: t) =
      (if c.score = m then
        { c with actualRank := (i : ℚ) + 0.5 + (k : ℚ) / 2,
                 actualPerformance := some (fneg (normsinvF P
                   (fdiv (some ((i : ℚ) + (k : ℚ) / 2)) (some (n : ℚ))))) }
       else c) :: assignRanks P m i k n t := by
  unfold assignRanks
  rw [List.map_cons]

lemma assignRanks_unranked (P : NumPrims) (m : ℚ) (i k n : ℕ) :
    ∀ cs : List Coder,
      unrankedScores (assignRanks P m i k n cs) =
        (unrankedScores cs).filter (fun s => ¬ s = m) := by
  intro cs
  induction cs with
  | nil => rfl
  | cons c t ih =>
    rw [assignRanks_cons]
    by_cases hsc : c.score = m
    · rw [if_pos hsc, unrankedScores_cons_neg _ _ (ne_of_gt (rank_val_pos i k)), ih]
      by_cases hr : c.actualRank = 0
      · rw [unrankedScores_cons_pos c t hr, List.filter_cons]
        simp [hsc]
      · rw [unrankedScores_cons_neg c t hr]
    · rw [if_neg hsc]
      by_cases hr : c.actualRank = 0
      · rw [unrankedScores_cons_pos c (assignRanks P m i k n t) hr,
          unrankedScores_cons_pos c t hr, List.filter_cons, ih]
        simp [hsc]
      · rw [unrankedScores_cons_neg c (assignRanks P m i k n t) hr,
          unrankedScores_cons_neg c t hr, ih]

lemma assignRanks_sum (P : NumPrims) (m : ℚ) (i k n : ℕ) :
    ∀ cs : List Coder, (∀ c ∈ cs, c.score = m → c.actualRank = 0) →
      sumRank (assignRanks P m i k n cs) =
        sumRank cs + ((unrankedScores cs).count m : ℚ) * ((i : ℚ) + 0.5 + (k : ℚ) / 2) := by
  intro cs
  induction cs with
  | nil =>
    intro _
    simp [sumRank, unrankedScores, assignRanks]
  | cons c t ih =>
    intro hsep
    have ihs := ih (fun d hd hds => hsep d (List.mem_cons_of_mem c hd) hds)
    rw [assignRanks_cons]
    by_cases hsc : c.score = m
    · have hr : c.actualRank = 0 := hsep c (List.mem_cons_self c t) hsc
      rw [if_pos hsc, sumRank_cons, sumRank_cons, ihs,
        unrankedScores_cons_pos c t hr, List.count_cons]
      show (i : ℚ) + 0.5 + (k : ℚ) / 2 + _ = _
      rw [hr]
      simp only [hsc, beq_self_eq_true, if_true]
      push_cast
      ring
    · rw [if_neg hsc, sumRank_cons, sumRank_cons, ihs]
      by_cases hr : c.actualRank = 0
      · rw [unrankedScores_cons_pos c t hr, List.count_cons]
        have hbeq : (c.score == m) = false := by simp [hsc]
        simp only [hbeq, Bool.false_eq_true, if_false, Nat.add_zero]
        ring
      · rw [unrankedScores_cons_neg c t hr]
        ring

lemma length_filter_ne_add_count (m : ℚ) (l : List ℚ) :
    (l.filter (fun s => ¬ s = m)).length + l.count m = l.length := by
  induction l with
  | nil => rfl
  | cons s t ih =>
    rw [List.filter_cons, List.count_cons]
    by_cases h : s = m
    · simp [h] at ih ⊢
      omega
    · simp [h] at ih ⊢
      omega

lemma rankLoop_sum (P : NumPrims) (n : ℕ) :
    ∀ (fuel i : ℕ) (cs : List Coder),
      (unrankedScores cs).length + i = n →
      i ≤ n →
      n ≤ fuel + i →
      (∀ c ∈ cs, ¬ c.actualRank = 0 → c.score ∉ unrankedScores cs) →
      sumRank cs = (i : ℚ) * ((i : ℚ) + 1) / 2 →
      sumRank (rankLoop P n fuel i cs) = (n : ℚ) * ((n : ℚ) + 1) / 2 := by
  intro fuel
  induction fuel with
  | zero =>
    intro i cs hU hin hfuel hP hsum
    have hieq : i = n := by omega
    subst hieq
    exact hsum
  | succ f ihf =>
    intro i cs hU hin hfuel hP hsum
    by_cases hi : i < n
    · have hUne : unrankedScores cs ≠ [] := by
        intro h
        rw [h] at hU
        simp at hU
        omega
      obtain ⟨m, hsm, hmem, hmax⟩ := scanMax_spec cs hUne
      have hkpos : 0 < (unrankedScores cs).count m := List.count_pos_iff.mpr hmem
      have hflt := length_filter_ne_add_count m (unrankedScores cs)
      unfold rankLoop
      simp only [hi, if_true]
      rw [hsm]
      show sumRank (rankLoop P n f (i + (unrankedScores cs).count m)
        (assignRanks P m i ((unrankedScores cs).count m) n cs)) = _
      have hU' : (unrankedScores (assignRanks P m i ((unrankedScores cs).count m) n cs)).length
          + (i + (unrankedScores cs).count m) = n := by
        rw [assignRanks_unranked]
        omega
      have hP' : ∀ c' ∈ assignRanks P m i ((unrankedScores cs).count m) n cs,
          ¬ c'.actualRank = 0 →
          c'.score ∉ unrankedScores (assignRanks P m i ((unrankedScores cs).count m) n cs) := by
        intro c' hc' hrk
        rw [assignRanks_unranked]
        intro hmem'
        have hfm := List.mem_filter.mp hmem'
        have hne_m : ¬ c'.score = m := by simpa using hfm.2
        have hmem_U : c'.score ∈ unrankedScores cs := hfm.1
        unfold assignRanks at hc'
        obtain ⟨c, hc, hfc⟩ := List.mem_map.mp hc'
        have hscore : c'.score = c.score := by
          rw [← hfc]
          by_cases hh : c.score = m
          · rw [if_pos hh]
          · rw [if_neg hh]
        by_cases hcs : c.score = m
        · exact hne_m (hscore.trans hcs)
        · have hc'c : c' = c := by rw [← hfc, if_neg hcs]
          refine hP c hc ?_ ?_
          · rw [← hc'c]; exact hrk
          · rw [← hc'c]; exact hmem_U
      have hsep : ∀ c ∈ cs, c.score = m → c.actualRank = 0 := by
        intro c hc hcm
        by_contra hrk
        exact hP c hc hrk (by rw [hcm]; exact hmem)
      have hsum' : sumRank (assignRanks P m i ((unrankedScores cs).count m) n cs)
          = ((i + (unrankedScores cs).count m : ℕ) : ℚ)
            * (((i + (unrankedScores cs).count m : ℕ) : ℚ) + 1) / 2 := by
        rw [assignRanks_sum P m i ((unrankedScores cs).count m) n cs hsep, hsum]
        push_cast
        ring
      exact ihf (i + (unrankedScores cs).count m) _ hU' (by omega) (by omega) hP' hsum'
    · have hieq : i = n := le_antisymm hin (le_of_not_lt hi)
      subst hieq
      unfold rankLoop
      simp only [hi, if_false]
      exact hsum

/-- C8: for every non-empty slate, the `actual_rank` values assigned by
the engine (ties at ranks `i+1 … i+k` each receiving `i + 0.5 + k/2`) sum
to `n(n+1)/2`, where `n` is the number of participants. -/
theorem C8_theorem (P : NumPrims) (cs : List Coder) (h : cs ≠ []) :
    sumRank (runQubitsAlgorithm P cs) =
      (cs.length : ℚ) * ((cs.length : ℚ) + 1) / 2 := by
  have hlen : ¬ cs.length = 0 := fun h0 => h (List.length_eq_zero.mp h0)
  unfold runQubitsAlgorithm
  simp only [hlen, if_false]
  set cs1 := cs.map normalizeFirstTimer with hcs1
  set cs3 := (expectedMap P cs1).map (fun c => { c with actualRank := 0 }) with hcs3
  set cs4 := rankLoop P cs1.length cs1.length 0 cs3 with hcs4
  have hpres : sumRank ((cs4.map (updateCoder P (engineMsd P cs1))).map
      (fun c => { c with numRatings := c.numRatings + 1 })) = sumRank cs4 := by
    unfold sumRank
    rw [List.map_map, List.map_map]
    rfl
  rw [hpres]
  have hall : ∀ c ∈ cs3, c.actualRank = 0 := by
    intro c hc
    rw [hcs3] at hc
    obtain ⟨d, -, hd⟩ := List.mem_map.mp hc
    rw [← hd]
  have hlen3 : cs3.length = cs1.length := by
    rw [hcs3, List.length_map]
    unfold expectedMap
    rw [List.length_map]
  have hU3 : (unrankedScores cs3).length = cs3.length := by
    unfold unrankedScores
    rw [List.length_map, List.filter_eq_self.mpr (fun c hc => by simpa using hall c hc)]
  have hsum3 : sumRank cs3 = ((0 : ℕ) : ℚ) * (((0 : ℕ) : ℚ) + 1) / 2 := by
    unfold sumRank
    rw [List.sum_eq_zero]
    · norm_num
    · intro x hx
      obtain ⟨c, hc, hcx⟩ := List.mem_map.mp hx
      rw [← hcx]
      exact hall c hc
  have hmain := rankLoop_sum P cs1.length cs1.length 0 cs3
    (by rw [hU3, hlen3]; omega) (Nat.zero_le _) (by omega)
    (fun c hc hrk => absurd (hall c hc) hrk) hsum3
  rw [← hcs4] at hmain
  rw [hmain, hcs1, List.length_map]

theorem C8_witness :
    slateC8 ≠ [] ∧
    sumRank (runQubitsAlgorithm prims0 slateC8) =
      (slateC8.length : ℚ) * ((slateC8.length : ℚ) + 1) / 2 :=
  ⟨by decide, C8_theorem prims0 slateC8 (by decide)⟩
